import Mathlib

/-!
Verification of the Shipyard pulse-compiler against its specification.

This file gives a shallow embedding, in Lean 4, of the parts of the
`shipyard` Python package that the checked claims are about:

* `shipyard/mangle.py` — the name mangling scheme (`FunctionSignature.mangle`),
  the demangling accessors of `MangledSignature`
  (`name()`/`params()`/`qubits()`/`return_type()`), and the overload scoring
  and resolution (`MangledSignature.match`, `FunctionSignature.match`).
* `shipyard/passes/remove_unused.py` — `_DetermineUnused` and `RemoveUnused`.
* `shipyard/call_stack.py` — activation records and the call stack.
* `shipyard/passes/interpreter.py` — the fragment of the AST interpreter the
  claims mention (identifiers, binary expressions, classical declarations and
  assignments, for-in loops over ranges, and the intercepted frame builtins
  `set_phase` / `shift_phase` / `set_frequency` / `shift_frequency`).
* `shipyard/duration.py` and `shipyard/setup/internal.py` — `Duration`,
  `TimeUnits`, `Port` and `Frame`.
* `shipyard/passes/timing_constraints.py` — `TimingConstraints`.

Python strings are embedded as `List Char`; Python floats are embedded as
exact rationals (`ℚ`); Python sets that the passes iterate over are embedded
as insertion-ordered duplicate-free lists; fallible Python code (code that can
raise) is embedded with `Option`/`Except` results.
-/

namespace Shipyard

/-- Characters of a Python string (Python `str` values are embedded as
character lists). -/
abbrev Str := List Char

/-! ## Python string primitives: `str.split`, `str.join`, `in` (substring) -/

/-- Worker for `pySplit`: scans the string one character at a time, splitting
at each (non-overlapping, leftmost-first) occurrence of the separator
`c0 :: sRest`, exactly as Python `str.split(sep)` does.  `acc` is the chunk
collected since the previous separator; `skip` counts separator characters
still to be consumed after a match was emitted (when a match fires at a
character, that character is consumed and the remaining `sRest.length`
separator characters are skipped one by one). -/
def splitGo (c0 : Char) (sRest : Str) : Str → Str → Nat → List Str
  | [], acc, _ => [acc]
  | c :: cs, acc, skip =>
    match skip with
    | Nat.succ k => splitGo c0 sRest cs acc k
    | 0 =>
      if (c0 :: sRest).isPrefixOf (c :: cs) then
        acc :: splitGo c0 sRest cs [] sRest.length
      else
        splitGo c0 sRest cs (acc ++ [c]) 0

/-- Python `s.split(sep)` for a nonempty separator (Python raises `ValueError`
on an empty separator; the `[]` case below is never used by the embedded
code, every separator in `mangle.py` being nonempty). -/
def pySplit (sep : Str) (l : Str) : List Str :=
  match sep with
  | [] => [l]
  | c :: cs => splitGo c cs l [] 0

/-- Python `sep.join(parts)`. -/
def pyJoin (sep : Str) : List Str → Str
  | [] => []
  | [t] => t
  | t :: ts => t ++ sep ++ pyJoin sep ts

/-- Substring test: does `term` occur (contiguously) in the string? -/
def isSubstr (term : Str) : Str → Bool
  | [] => term.isEmpty
  | c :: cs => term.isPrefixOf (c :: cs) || isSubstr term cs

/-- Python `term in symbol` for strings: substring containment. -/
def pyContains (symbol term : Str) : Bool := isSubstr term symbol

/-- Worker for `natChars`, with fuel bounding the recursion depth (any fuel
above the number of digits gives the same result; `natChars` supplies
`n + 1`, always enough since `n / 10 < n` for `n ≥ 10`). -/
def natCharsGo : Nat → Nat → Str
  | 0, _ => []
  | fuel + 1, n =>
    if n < 10 then [Nat.digitChar n]
    else natCharsGo fuel (n / 10) ++ [Nat.digitChar (n % 10)]

/-- Decimal digit characters of a natural number, most significant first
(the characters of Python `str(n)` / f-string formatting of `len(...)`). -/
def natChars (n : Nat) : Str := natCharsGo (n + 1) n

/-! ## `shipyard/utilities.py`: `is_number`

`is_number(s)` is `True` iff Python `float(s)` succeeds.  The CPython float
grammar is: optional surrounding whitespace, an optional sign, and then
either `inf`/`infinity`/`nan` (case-insensitive) or a decimal literal
`digits [. digits] [e[sign]digits]` where each digit group may contain
single underscores surrounded by digits on both sides. -/

/-- Characters Python `float()` strips from both ends of its argument. -/
def isPySpace (c : Char) : Bool :=
  c == ' ' || c == '\t' || c == '\n' || c == '\r' || c == '\x0b' || c == '\x0c'

/-- Strip leading and trailing whitespace. -/
def stripSpaces (l : Str) : Str :=
  ((l.dropWhile isPySpace).reverse.dropWhile isPySpace).reverse

/-- Drop one optional leading sign character. -/
def dropSign : Str → Str
  | '+' :: r => r
  | '-' :: r => r
  | r => r

/-- Scanner for a digit group: digits with single underscores allowed only
between two digits. -/
def digitsUGo : Str → Bool
  | [] => true
  | [c] => c.isDigit
  | c :: '_' :: d :: rest => c.isDigit && d.isDigit && digitsUGo (d :: rest)
  | c :: d :: rest => c.isDigit && digitsUGo (d :: rest)

/-- A nonempty digit group (decimal digits, with CPython's underscore rule). -/
def digitsU (l : Str) : Bool := !l.isEmpty && digitsUGo l

/-- The mantissa part of a float literal: `digits`, `digits.`, `digits.digits`
or `.digits`. -/
def floatMantissa (l : Str) : Bool :=
  match pySplit ['.'] l with
  | [a] => digitsU a
  | [a, b] => (digitsU a && (b.isEmpty || digitsU b)) || (a.isEmpty && digitsU b)
  | _ => false

/-- Split off an exponent part at the first `e`/`E`, if any. -/
def splitExpo (l : Str) : Str × Option Str :=
  match l.dropWhile (fun c => !(c == 'e' || c == 'E')) with
  | [] => (l, none)
  | _ :: rest => (l.takeWhile (fun c => !(c == 'e' || c == 'E')), some rest)

/-- A decimal float literal body (mantissa with optional exponent). -/
def floatCore (l : Str) : Bool :=
  match splitExpo l with
  | (m, none) => floatMantissa m
  | (m, some ex) => floatMantissa m && digitsU (dropSign ex)

/-- `shipyard.utilities.is_number`: whether Python `float(s)` succeeds. -/
def is_number (s : Str) : Bool :=
  let b := dropSign (stripSpaces s)
  let low := b.map Char.toLower
  low == "inf".toList || low == "infinity".toList || low == "nan".toList ||
    floatCore b

/-! ## `shipyard/mangle.py`: `FunctionSignature` and `MangledSignature` -/

/-- `shipyard.mangle.FunctionSignature`: a function's name together with the
mangling tokens of its parameters and qubits and its return-type token. -/
structure FunctionSignature where
  name : Str
  params : List Str := []
  qubits : List Str := []
  return_type : Str := []
deriving Repr, DecidableEq

/-- `FunctionSignature.mangle`:
`_ZN{len(name)}{name}_PN{len(params)}[_{p1}_{p2}...]_QN{len(qubits)}[_{q1}...]_R{return_type}`. -/
def FunctionSignature.mangle (s : FunctionSignature) : Str :=
  "_ZN".toList ++ natChars s.name.length ++ s.name
    ++ "_PN".toList ++ natChars s.params.length
    ++ (if s.params.length > 0 then ['_'] else [])
    ++ pyJoin ['_'] s.params
    ++ "_QN".toList ++ natChars s.qubits.length
    ++ (if s.qubits.length > 0 then ['_'] else [])
    ++ pyJoin ['_'] s.qubits
    ++ "_R".toList ++ s.return_type

/-- `MangledSignature.name()`:
`split("_PN")[0]`, then `split("_ZN")[1]`, then strip the decimal length
prefix.  Returns `none` where Python raises `IndexError` (a missing `[1]`
component, or the digit-stripping loop running past the end). -/
def msName? (sig : Str) : Option Str :=
  let nameRemains := (pySplit "_PN".toList sig).headD []
  match (pySplit "_ZN".toList nameRemains)[1]? with
  | none => none
  | some nl =>
    if (nl.dropWhile Char.isDigit).isEmpty then none
    else some (nl.dropWhile Char.isDigit)

/-- `MangledSignature.params()`:
`split("_PN")[1]`, then `split("_QN")[0]`, then `split("_")[1:]`.
Returns `none` where Python raises `IndexError`. -/
def msParams? (sig : Str) : Option (List Str) :=
  match (pySplit "_PN".toList sig)[1]? with
  | none => none
  | some nameRemoved =>
    let justParams := (pySplit "_QN".toList nameRemoved).headD []
    some ((pySplit ['_'] justParams).drop 1)

/-- `MangledSignature.qubits()`:
`split("_QN")[1]`, then `split("_R")[0]`, then `split("_")[1:]`.
Returns `none` where Python raises `IndexError`. -/
def msQubits? (sig : Str) : Option (List Str) :=
  match (pySplit "_QN".toList sig)[1]? with
  | none => none
  | some nameRemoved =>
    let justQubits := (pySplit "_R".toList nameRemoved).headD []
    some ((pySplit ['_'] justQubits).drop 1)

/-- `MangledSignature.return_type()`: `split("_R")[1]`.
Returns `none` where Python raises `IndexError`. -/
def msReturnType? (sig : Str) : Option Str :=
  (pySplit "_R".toList sig)[1]?

/-- One iteration of the parameter loop of `MangledSignature.match`:
`+1` for an exact match with a numeric signature token, `-100` for a
mismatched numeric signature token, `+1/(len(params)+1)` for a numeric call
argument against a non-numeric (generic) signature token. -/
def paramStep (nParams : Nat) (pf : Str × Str) : ℚ :=
  if is_number pf.2 then (if pf.1 = pf.2 then 1 else -100)
  else if is_number pf.1 then 1 / (nParams + 1) else 0

/-- The parameter part of the score of `MangledSignature.match`
(`zip` truncates to the shorter list, as in Python). -/
def paramsScore (params fParams : List Str) : ℚ :=
  ((params.zip fParams).map (paramStep params.length)).sum

/-- One iteration of the qubit loop of `MangledSignature.match`:
`+1` for equal tokens or two wildcard (no-`$`) tokens,
`+1/((len(params)+1)*(len(qubits)+1))` for a physical qubit called against a
wildcard signature token, `-1000` for a signature defined for a different
physical qubit. -/
def qubitStep (nParams nQubits : Nat) (qf : Str × Str) : ℚ :=
  if qf.1 = qf.2 ∨ ('$' ∉ qf.1 ∧ '$' ∉ qf.2) then 1
  else if '$' ∈ qf.1 ∧ '$' ∉ qf.2 then 1 / ((nParams + 1) * (nQubits + 1))
  else if '$' ∈ qf.2 then -1000 else 0

/-- The qubit part of the score of `MangledSignature.match`. -/
def qubitsScore (nParams : Nat) (qubits fQubits : List Str) : ℚ :=
  ((qubits.zip fQubits).map (qubitStep nParams qubits.length)).sum

/-- `MangledSignature.match(params, qubits)`: the total score of a candidate
mangled signature against the call's parameter and qubit tokens.  (On a
malformed signature string, where `params()`/`qubits()` would raise in
Python, the token lists default to `[]`; all candidates scored by the
embedded code are produced by `mangle`.) -/
def msMatchScore (sig : Str) (params qubits : List Str) : ℚ :=
  paramsScore params ((msParams? sig).getD []) +
    qubitsScore params.length qubits ((msQubits? sig).getD [])

/-- `filter_symbols` from `FunctionSignature.match`: keep the symbols that
contain `term` as a substring. -/
def filterSymbols (symbols : List Str) (term : Str) : List Str :=
  symbols.filter (fun s => pyContains s term)

/-- `FunctionSignature.match(mangled_names)`: filter by name, parameter count
and qubit count, score each remaining candidate, drop negative scores, and
return all candidates achieving the maximal score (empty when nothing
survives, as in Python, where the `max(...)` inside the comprehension is
then never evaluated). -/
def FunctionSignature.matchSig (self : FunctionSignature) (mangledNames : List Str) :
    List Str :=
  let f1 := filterSymbols mangledNames
    ("_ZN".toList ++ natChars self.name.length ++ self.name)
  let f2 := filterSymbols f1 ("_PN".toList ++ natChars self.params.length)
  let f3 := filterSymbols f2 ("_QN".toList ++ natChars self.qubits.length)
  let matchDict := f3.map (fun s => (s, msMatchScore s self.params self.qubits))
  let kept := matchDict.filter (fun kv => 0 ≤ kv.2)
  match (kept.map (fun kv => kv.2)).max? with
  | none => []
  | some maxV => (kept.filter (fun kv => kv.2 = maxV)).map (fun kv => kv.1)

/-- Characters of Python `str(i)` for an integer. -/
def intChars (i : Int) : Str :=
  if i < 0 then '-' :: natChars (-i).toNat else natChars i.toNat

/-! ## `shipyard/passes/remove_unused.py`

The openQASM AST (an external collaborator produced by the openpulse parser)
is embedded as the fragment of node kinds that `_DetermineUnused` and
`RemoveUnused` visit.  Expressions are identifiers and integer literals
(the other literal kinds behave exactly like `intLit` for these passes:
no identifiers inside).  Statement bodies use a dedicated list type
(`QStmts`) so that the mutual recursion of the passes is structural. -/

/-- Expression fragment of the openQASM AST. -/
inductive QExpr where
  | ident (name : Str)
  | intLit (value : Int)
deriving Repr, DecidableEq

mutual
/-- Statement fragment of the openQASM AST: the node kinds with dedicated
visitors in `remove_unused.py`, plus return/expression statements (handled
by the generic visitor/transformer).  `calibrationDef` parameters and
qubits are the already-tokenized mangling strings `Mangler` produces from
them (literal tokens such as `90`, type tokens such as `ANGLE`, qubit names
such as `$0`). -/
inductive QStmt where
  | classicalDecl (id : Str) (init : Option QExpr)
  | constantDecl (id : Str) (init : QExpr)
  | subroutineDef (id : Str) (args : List Str) (body : QStmts)
  | calibrationDef (name : Str) (params : List Str) (qubits : List Str)
      (ret : Option Str) (body : QStmts)
  | quantumGate (name : Str) (args : List QExpr) (qubits : List Str)
  | quantumReset (qubit : Str)
  | measureStmt (qubit : Str) (target : Option Str)
  | returnStmt (e : QExpr)
  | exprStmt (e : QExpr)

/-- Statement lists (the bodies of programs, subroutines and defcals). -/
inductive QStmts where
  | nil
  | cons (s : QStmt) (rest : QStmts)
end

/-- Is a statement list empty (Python truthiness of `node.body`)? -/
def QStmts.isNil : QStmts → Bool
  | .nil => true
  | .cons _ _ => false

/-- Ordered-set insertion (Python `set.add`, with the set embedded as an
insertion-ordered duplicate-free list). -/
def setAdd (l : List Str) (x : Str) : List Str :=
  if x ∈ l then l else l ++ [x]

/-- Ordered-set removal (Python `set.discard`). -/
def setDiscard (l : List Str) (x : Str) : List Str :=
  l.filter (fun y => ¬ y = x)

/-- `Mangler`'s token for a gate-call argument (`visit_Identifier` returns
the name, the literal visitors return the printed literal). -/
def manglerTok : QExpr → Str
  | .ident n => n
  | .intLit v => intChars v

/-- `Mangler(node).signature()` for a `CalibrationDefinition` node
(`return_type` is `""` when the node has none). -/
def sigOfDefcal (name : Str) (params qubits : List Str) (ret : Option Str) :
    FunctionSignature :=
  ⟨name, params, qubits, ret.getD []⟩

/-- `Mangler(node).signature()` for a `QuantumGate` node. -/
def sigOfGate (name : Str) (args : List QExpr) (qubits : List Str) :
    FunctionSignature :=
  ⟨name, args.map manglerTok, qubits, []⟩

/-- `Mangler(node).signature()` for a `QuantumMeasurement` node. -/
def sigOfMeasure (q : Str) : FunctionSignature :=
  ⟨"measure".toList, [], [q], "BIT".toList⟩

/-- `Mangler(node).signature()` for a `QuantumReset` node. -/
def sigOfReset (q : Str) : FunctionSignature :=
  ⟨"reset".toList, [], [q], []⟩

/-- State of `_DetermineUnused`: the sets of unused and declared names. -/
structure DUState where
  unused : List Str
  declared : List Str

/-- Visiting an expression in `_DetermineUnused`: the generic visitor reaches
every `Identifier` and discards its name from the unused set. -/
def duExpr (unused : List Str) : QExpr → List Str
  | .ident n => setDiscard unused n
  | .intLit _ => unused

/-- `_DetermineUnused`'s traversal of a statement list: declarations add
their name — for defcals, their mangled signature — to both the unused and
declared sets; gate/measure/reset calls discard the first symbol of the
unused set their signature matches; identifiers reached by the traversal
(initializer expressions, subroutine argument names, gate-call arguments,
measurement targets) are discarded from the unused set; subroutine and
defcal bodies are traversed recursively. -/
def duStmts : DUState → QStmts → DUState
  | st, .nil => st
  | st, .cons (.classicalDecl id init) rest =>
    let st1 : DUState := ⟨setAdd st.unused id, setAdd st.declared id⟩
    let st2 : DUState :=
      match init with
      | none => st1
      | some e => ⟨duExpr st1.unused e, st1.declared⟩
    duStmts st2 rest
  | st, .cons (.constantDecl id init) rest =>
    let st1 : DUState := ⟨setAdd st.unused id, setAdd st.declared id⟩
    duStmts ⟨duExpr st1.unused init, st1.declared⟩ rest
  | st, .cons (.subroutineDef id args body) rest =>
    let st1 : DUState := ⟨setAdd st.unused id, setAdd st.declared id⟩
    -- visiting the `ClassicalArgument`s reaches their name identifiers
    let st2 : DUState := ⟨args.foldl setDiscard st1.unused, st1.declared⟩
    duStmts (duStmts st2 body) rest
  | st, .cons (.calibrationDef name ps qs ret body) rest =>
    let m := (sigOfDefcal name ps qs ret).mangle
    let st1 : DUState := ⟨setAdd st.unused m, setAdd st.declared m⟩
    -- the modeled defcal arguments and qubits are leaf tokens: visiting them
    -- reaches no identifiers
    duStmts (duStmts st1 body) rest
  | st, .cons (.quantumGate name args qubits) rest =>
    let st1 : DUState :=
      match (sigOfGate name args qubits).matchSig st.unused with
      | [] => st
      | m :: _ => ⟨setDiscard st.unused m, st.declared⟩
    duStmts ⟨args.foldl (fun u a => duExpr u a) st1.unused, st1.declared⟩ rest
  | st, .cons (.quantumReset q) rest =>
    let st1 : DUState :=
      match (sigOfReset q).matchSig st.unused with
      | [] => st
      | m :: _ => ⟨setDiscard st.unused m, st.declared⟩
    duStmts st1 rest
  | st, .cons (.measureStmt q tgt) rest =>
    -- generic traversal of `QuantumMeasurementStatement`: the inner
    -- `QuantumMeasurement` first, then the target identifier
    let st1 : DUState :=
      match (sigOfMeasure q).matchSig st.unused with
      | [] => st
      | m :: _ => ⟨setDiscard st.unused m, st.declared⟩
    let st2 : DUState :=
      match tgt with
      | none => st1
      | some t => ⟨setDiscard st1.unused t, st1.declared⟩
    duStmts st2 rest
  | st, .cons (.returnStmt e) rest => duStmts ⟨duExpr st.unused e, st.declared⟩ rest
  | st, .cons (.exprStmt e) rest => duStmts ⟨duExpr st.unused e, st.declared⟩ rest

/-- `_DetermineUnused(node).result()` on a program. -/
def determineUnused (p : QStmts) : List Str × List Str :=
  let st := duStmts ⟨[], []⟩ p
  (st.unused, st.declared)

/-- Does a (transformed) defcal body contain a `ReturnStatement`? -/
def hasReturn : QStmts → Bool
  | .nil => false
  | .cons (.returnStmt _) _ => true
  | .cons _ rest => hasReturn rest

/-- `RemoveUnused`'s transformation of a statement list (`_visit_list`:
visit each statement in order, threading the state, and keep the non-`None`
results).  `u`/`d` are the unused/declared sets computed once by
`_DetermineUnused` (the pass never mutates them); `ra` is the
`remove_assignment` set, threaded through the traversal.  Unused
declarations (and subroutine definitions) are dropped; a defcal is kept
when Python's `not match(unused) and node.body or name == "measure"` holds,
with its return type cleared (and its no-return mangled signature added to
`remove_assignment`) when the transformed body has no return statement;
undeclared gate/measure/reset calls are dropped; a measurement statement
whose no-return mangled signature is in `remove_assignment` loses its
target. -/
def ruStmts (u d : List Str) : List Str → QStmts → QStmts × List Str
  | ra, .nil => (.nil, ra)
  | ra, .cons (.classicalDecl id init) rest =>
    let r2 := ruStmts u d ra rest
    if id ∈ u then r2 else (.cons (.classicalDecl id init) r2.1, r2.2)
  | ra, .cons (.constantDecl id init) rest =>
    let r2 := ruStmts u d ra rest
    if id ∈ u then r2 else (.cons (.constantDecl id init) r2.1, r2.2)
  | ra, .cons (.subroutineDef id args body) rest =>
    let r := ruStmts u d ra body
    let r2 := ruStmts u d r.2 rest
    if id ∈ u then r2 else (.cons (.subroutineDef id args r.1) r2.1, r2.2)
  | ra, .cons (.calibrationDef name ps qs ret body) rest =>
    let r := ruStmts u d ra body
    -- Python: `not match(unused) and node.body or name == "measure"`
    if ((sigOfDefcal name ps qs ret).matchSig u = [] ∧ r.1.isNil = false)
        ∨ name = "measure".toList then
      match ret with
      | some t =>
        if hasReturn r.1 then
          let r2 := ruStmts u d r.2 rest
          (.cons (.calibrationDef name ps qs (some t) r.1) r2.1, r2.2)
        else
          let r2 := ruStmts u d (setAdd r.2 ((sigOfDefcal name ps qs none).mangle)) rest
          (.cons (.calibrationDef name ps qs none r.1) r2.1, r2.2)
      | none =>
        let r2 := ruStmts u d r.2 rest
        (.cons (.calibrationDef name ps qs none r.1) r2.1, r2.2)
    else ruStmts u d r.2 rest
  | ra, .cons (.quantumGate name args qubits) rest =>
    let r2 := ruStmts u d ra rest
    if (sigOfGate name args qubits).matchSig d = [] then r2
    else (.cons (.quantumGate name args qubits) r2.1, r2.2)
  | ra, .cons (.quantumReset q) rest =>
    let r2 := ruStmts u d ra rest
    if (sigOfReset q).matchSig d = [] then r2
    else (.cons (.quantumReset q) r2.1, r2.2)
  | ra, .cons (.measureStmt q tgt) rest =>
    -- `mangler = Mangler(node.measure); mangler.return_type = ""`
    let noRetSig : FunctionSignature := ⟨"measure".toList, [], [q], []⟩
    let tgt' := if noRetSig.mangle ∈ ra then none else tgt
    let r2 := ruStmts u d ra rest
    if (sigOfMeasure q).matchSig d = [] then r2
    else (.cons (.measureStmt q tgt') r2.1, r2.2)
  | ra, .cons (.returnStmt e) rest =>
    let r2 := ruStmts u d ra rest
    (.cons (.returnStmt e) r2.1, r2.2)
  | ra, .cons (.exprStmt e) rest =>
    let r2 := ruStmts u d ra rest
    (.cons (.exprStmt e) r2.1, r2.2)

/-- One application of a fresh `RemoveUnused` pass to a program:
`_DetermineUnused` computes the unused/declared sets on the first `visit`,
then the transformer runs over the statements. -/
def removeUnused (p : QStmts) : QStmts :=
  let ud := determineUnused p
  (ruStmts ud.1 ud.2 [] p).1

/-- Node count of a statement list, counting removable parts: each
statement, an optional defcal return type, an optional measurement target,
and body statements recursively. -/
def qstmtsSize : QStmts → Nat
  | .nil => 0
  | .cons (.classicalDecl _ _) rest => 1 + qstmtsSize rest
  | .cons (.constantDecl _ _) rest => 1 + qstmtsSize rest
  | .cons (.subroutineDef _ _ body) rest => 1 + qstmtsSize body + qstmtsSize rest
  | .cons (.calibrationDef _ _ _ ret body) rest =>
    1 + (match ret with | none => 0 | some _ => 1) + qstmtsSize body + qstmtsSize rest
  | .cons (.quantumGate _ _ _) rest => 1 + qstmtsSize rest
  | .cons (.quantumReset _) rest => 1 + qstmtsSize rest
  | .cons (.measureStmt _ tgt) rest =>
    1 + (match tgt with | none => 0 | some _ => 1) + qstmtsSize rest
  | .cons (.returnStmt _) rest => 1 + qstmtsSize rest
  | .cons (.exprStmt _) rest => 1 + qstmtsSize rest

/-! ## `shipyard/duration.py`: `TimeUnits` and `Duration` -/

/-- `shipyard.duration.TimeUnits` (`µs` is an alias of `us` with the same
value, so it is embedded as the single constructor `us`).  Python stores the
unit values as floats; they are embedded as exact rationals. -/
inductive TimeUnits where
  | dt
  | ns
  | us
  | ms
  | s
deriving Repr, DecidableEq

/-- The numeric value of a time unit (`dt = 0.5e-9`, the sample period at
2 GS/s). -/
def TimeUnits.val : TimeUnits → ℚ
  | .dt => 1 / 2000000000
  | .ns => 1 / 1000000000
  | .us => 1 / 1000000
  | .ms => 1 / 1000
  | .s => 1

/-- `shipyard.duration.Duration`: a time value together with its unit. -/
structure Duration where
  time : ℚ
  unit : TimeUnits := .dt
deriving Repr, DecidableEq

/-- `Duration.set_unit`: change the unit, rescaling the time value. -/
def Duration.set_unit (d : Duration) (u : TimeUnits) : Duration :=
  ⟨d.time * d.unit.val / u.val, u⟩

/-- `Duration._real_time`: the time in seconds. -/
def Duration.realTime (d : Duration) : ℚ := d.time * d.unit.val

/-- `Duration.__add__` for two durations (result keeps the left unit). -/
def Duration.addD (d other : Duration) : Duration :=
  ⟨d.time + other.time * other.unit.val / d.unit.val, d.unit⟩

/-- Python `int(x)` on a float: truncation toward zero. -/
def pyTrunc (q : ℚ) : Int := if 0 ≤ q then ⌊q⌋ else ⌈q⌉

/-! ## `shipyard/setup/internal.py`: `Port` and `Frame` -/

/-- `shipyard.setup.internal.Port` is a frozen (immutable) value object; only
its identity matters to the embedded claims, so only its name is kept (the
instrument and AWG-core fields are further plain data). -/
structure Port where
  name : Str
deriving Repr, DecidableEq

/-- `shipyard.setup.internal.Frame`. -/
structure Frame where
  name : Str
  port : Port
  frequency : ℚ := 0
  phase : ℚ := 0
  time : Duration := ⟨0, .dt⟩
deriving Repr, DecidableEq

/-- `Frame.set_phase`. -/
def Frame.set_phase (f : Frame) (phase : ℚ) : Frame := { f with phase := phase }

/-- `Frame.shift_phase`. -/
def Frame.shift_phase (f : Frame) (phase : ℚ) : Frame :=
  { f with phase := f.phase + phase }

/-- `Frame.set_frequency`. -/
def Frame.set_frequency (f : Frame) (frequency : ℚ) : Frame :=
  { f with frequency := frequency }

/-- `Frame.shift_frequency`. -/
def Frame.shift_frequency (f : Frame) (frequency : ℚ) : Frame :=
  { f with frequency := f.frequency + frequency }

/-- `Frame.advance`: advance the frame time by a duration. -/
def Frame.advance (f : Frame) (duration : Duration) : Frame :=
  { f with time := f.time.addD duration }

/-- `Frame.advance_to`: first `duration.set_unit(self.time.unit)` mutates the
caller's argument (returned as the first component); then either a
`ValueError` (`none`) when the frame time is later, or the frame with
`time.time = int(duration.time * duration.unit.value / self.time.unit.value)`. -/
def Frame.advance_to (f : Frame) (duration : Duration) : Duration × Option Frame :=
  let d := duration.set_unit f.time.unit
  if f.time.realTime > d.realTime then (d, none)
  else
    (d, some { f with
      time := ⟨((pyTrunc (d.time * d.unit.val / f.time.unit.val) : Int) : ℚ),
        f.time.unit⟩ })

/-! ## `shipyard/call_stack.py` -/

/-- `shipyard.call_stack.ARType`. -/
inductive ARType where
  | program
  | externCall
  | subroutine
  | calibration
  | defcal
  | gate
  | loop
deriving Repr, DecidableEq

/-- Values the embedded interpreter fragment computes (Python objects held in
activation-record members). -/
inductive Value where
  | vInt (i : Int)
  | vFloat (q : ℚ)
  | vBool (b : Bool)
  | vFrame (f : Frame)
  | vNone
deriving Repr, DecidableEq

/-- Python dict lookup on insertion-ordered association lists. -/
def assocGet? : List (Str × Value) → Str → Option Value
  | [], _ => none
  | (k', v') :: rest, k => if k' = k then some v' else assocGet? rest k

/-- Python dict assignment: overwrite in place, or append a new key. -/
def assocSet : List (Str × Value) → Str → Value → List (Str × Value)
  | [], k, v => [(k, v)]
  | (k', v') :: rest, k, v =>
    if k' = k then (k, v) :: rest else (k', v') :: assocSet rest k v

/-- `shipyard.call_stack.ActivationRecord` (members are a Python dict,
embedded as an insertion-ordered association list). -/
structure ActivationRecord where
  name : Str
  arType : ARType
  nestingLevel : Int
  members : List (Str × Value) := []
deriving Repr, DecidableEq

/-- `shipyard.call_stack.CallStack` (`_records`; the top of the stack is the
end of the list, as with Python `list.append`/`pop`). -/
structure CallStack where
  records : List ActivationRecord := []
deriving Repr, DecidableEq

/-- `CallStack.push`. -/
def CallStack.push (cs : CallStack) (r : ActivationRecord) : CallStack :=
  ⟨cs.records ++ [r]⟩

/-- `CallStack.pop` (only the resulting stack; the interpreter's context
manager discards the popped record). -/
def CallStack.popRec (cs : CallStack) : CallStack :=
  ⟨cs.records.dropLast⟩

/-- `CallStack.peek` (`none` where Python raises `IndexError` on an empty
stack). -/
def CallStack.peek? (cs : CallStack) : Option ActivationRecord :=
  cs.records.getLast?

/-- Worker for `down_stack`: scan the records from the top of the stack
downward for one whose members bind the name. -/
def downStackGo (name : Str) : List ActivationRecord → Option ActivationRecord
  | [] => none
  | r :: rest =>
    if (assocGet? r.members name).isSome then some r else downStackGo name rest

/-- `CallStack.down_stack(name)` (`none` where Python raises
`KeyError("Could not find {name} in call stack")`). -/
def CallStack.downStack (cs : CallStack) (name : Str) : Option ActivationRecord :=
  downStackGo name cs.records.reverse

/-- Rebind `name` in the nearest-to-top record that already binds it (the
effect of Python's `self.call_stack.down_stack(name)[name] = value` /
mutation of the object found there); scans the reversed record list. -/
def setScopeGo (name : Str) (v : Value) : List ActivationRecord → List ActivationRecord
  | [] => []
  | r :: rest =>
    if (assocGet? r.members name).isSome then
      { r with members := assocSet r.members name v } :: rest
    else r :: setScopeGo name v rest

/-- Rebind a name in the record `down_stack` finds for it. -/
def CallStack.setInScope (cs : CallStack) (name : Str) (v : Value) : CallStack :=
  ⟨(setScopeGo name v cs.records.reverse).reverse⟩

/-- Bind a name in the top (peeked) record
(`self.call_stack.peek()[name] = value`); `none` on an empty stack, where
Python's `peek` raises `IndexError`. -/
def CallStack.setInPeek? (cs : CallStack) (name : Str) (v : Value) : Option CallStack :=
  match cs.records.getLast? with
  | none => none
  | some top =>
    some ⟨cs.records.dropLast ++ [{ top with members := assocSet top.members name v }]⟩

/-! ## `shipyard/passes/interpreter.py` (the embedded fragment) -/

/-- `shipyard.compiler_error.ErrorCode` (the members the embedded fragment
can produce). -/
inductive ErrorCode where
  | idNotFound
  | unhandled
  | compileOut
  | invalidWaveform
deriving Repr, DecidableEq

/-- Exceptions of the embedded fragment: shipyard `SemanticError`/`Error`
values, and the Python builtin exceptions the fragment can raise. -/
inductive PErr where
  | semantic (code : ErrorCode) (msg : Str)
  | error (code : ErrorCode) (msg : Str)
  | keyError (msg : Str)
  | indexError
  | typeError
  | valueError (msg : Str)
deriving Repr, DecidableEq

/-- `Interpreter.visit_Identifier`: look the name up down the stack; a
`KeyError` (from `down_stack` or from the record lookup itself) becomes
`SemanticError(ErrorCode.ID_NOT_FOUND, ...)`. -/
def visitIdentifier (cs : CallStack) (name : Str) : Except PErr Value :=
  match cs.downStack name with
  | some r =>
    match assocGet? r.members name with
    | some v => .ok v
    | none =>
      .error (.semantic .idNotFound
        ("Identifier: ".toList ++ name ++ " not found in call stack".toList))
  | none =>
    .error (.semantic .idNotFound
      ("Identifier: ".toList ++ name ++ " not found in call stack".toList))

/-- The binary operators of `binary_ops` the embedded fragment uses, with
their `openqasm3` operator codes: `>`(1) `<`(2) `>=`(3) `<=`(4) `==`(5)
`!=`(6) `&&`(7) `||`(8) `+`(14) `-`(15) `*`(16). -/
inductive BinOp where
  | gt
  | lt
  | ge
  | le
  | eq
  | ne
  | logicAnd
  | logicOr
  | add
  | sub
  | mul
deriving Repr, DecidableEq

/-- Python truthiness of an embedded value (`bool(x)`): zero numbers and
`None` are falsy; `Frame` objects are truthy. -/
def pyTruthy : Value → Bool
  | .vInt i => ¬ i = 0
  | .vFloat q => ¬ q = 0
  | .vBool b => b
  | .vFrame _ => true
  | .vNone => false

/-- View a value as a Python `int` (Python `bool` is an `int` subtype). -/
def intView? : Value → Option Int
  | .vInt i => some i
  | .vBool b => some (if b then 1 else 0)
  | _ => none

/-- View a value as a real number (for float-producing arithmetic and
comparisons). -/
def ratView? : Value → Option ℚ
  | .vInt i => some (i : ℚ)
  | .vFloat q => some q
  | .vBool b => some (if b then 1 else 0)
  | _ => none

/-- Python numeric arithmetic: `int op int → int`, otherwise float
(a `TypeError` outside numbers). -/
def arithOp (f : Int → Int → Int) (g : ℚ → ℚ → ℚ) (x y : Value) :
    Except PErr Value :=
  match intView? x, intView? y with
  | some a, some b => .ok (.vInt (f a b))
  | _, _ =>
    match ratView? x, ratView? y with
    | some a, some b => .ok (.vFloat (g a b))
    | _, _ => .error .typeError

/-- Python numeric comparison (a `TypeError` outside numbers; non-numeric
comparisons do not occur in the embedded fragment). -/
def cmpOp (p : ℚ → ℚ → Prop) [DecidableRel p] (x y : Value) : Except PErr Value :=
  match ratView? x, ratView? y with
  | some a, some b => .ok (.vBool (decide (p a b)))
  | _, _ => .error .typeError

/-- `binary_ops[op.value](left, right)`: note that `and`/`or` are the
non-short-circuiting lambdas `lambda x, y: x and y` / `lambda x, y: x or y`
applied to both already-computed operand values, returning the selected
operand value itself (not a normalized boolean). -/
def binEval (op : BinOp) (x y : Value) : Except PErr Value :=
  match op with
  | .gt => cmpOp (fun a b => a > b) x y
  | .lt => cmpOp (fun a b => a < b) x y
  | .ge => cmpOp (fun a b => a ≥ b) x y
  | .le => cmpOp (fun a b => a ≤ b) x y
  | .eq => cmpOp (fun a b => a = b) x y
  | .ne => cmpOp (fun a b => ¬ a = b) x y
  | .logicAnd => .ok (if pyTruthy x then y else x)
  | .logicOr => .ok (if pyTruthy x then x else y)
  | .add => arithOp (· + ·) (· + ·) x y
  | .sub => arithOp (· - ·) (· - ·) x y
  | .mul => arithOp (· * ·) (· * ·) x y

/-- The four frame builtins `visit_FunctionCall` intercepts and dispatches on
(`play`/`capture_*` are pass-through in the base `Interpreter`, and general
function calls are outside the embedded fragment). -/
inductive FrameOp where
  | setPhase
  | shiftPhase
  | setFrequency
  | shiftFrequency
deriving Repr, DecidableEq

/-- The Python name of a frame builtin (the activation-record name the call
pushes). -/
def FrameOp.opName : FrameOp → Str
  | .setPhase => "set_phase".toList
  | .shiftPhase => "shift_phase".toList
  | .setFrequency => "set_frequency".toList
  | .shiftFrequency => "shift_frequency".toList

/-- The float value of `np.pi` (the IEEE-754 double nearest to π, as an
exact rational: `884279719003555 * 2^-48`). -/
def npPi : ℚ := 884279719003555 / 281474976710656

/-- Python `a % b` on floats (for `b > 0`; the result carries the sign of the
divisor): `a - b * floor(a / b)`. -/
def pyMod (a b : ℚ) : ℚ := a - b * ⌊a / b⌋

/-- The phase wrap `(phase_val + np.pi) % (2 * np.pi) - np.pi` performed by
the `set_phase`/`shift_phase` cases of `Interpreter.visit_FunctionCall`,
with an arbitrary positive stand-in for `np.pi`. -/
def wrapPhase (pi x : ℚ) : ℚ := pyMod (x + pi) (2 * pi) - pi

/-- The `set_phase` case of `Interpreter.visit_FunctionCall`: wrap the
requested phase and store it on the resolved frame. -/
def interpSetPhase (f : Frame) (v : ℚ) : Frame :=
  f.set_phase (wrapPhase npPi v)

/-- The `shift_phase` case of `Interpreter.visit_FunctionCall`: wrap the
current phase plus the shift and store it on the resolved frame. -/
def interpShiftPhase (f : Frame) (v : ℚ) : Frame :=
  f.set_phase (wrapPhase npPi (v + f.phase))

/-- Expression fragment the embedded interpreter evaluates.  `frameCall` is a
`FunctionCall` node whose name is one of the four intercepted frame builtins
and whose arguments are `[Identifier(frame), arg]`. -/
inductive PExpr where
  | intLit (i : Int)
  | floatLit (q : ℚ)
  | boolLit (b : Bool)
  | ident (name : Str)
  | binary (op : BinOp) (lhs rhs : PExpr)
  | frameCall (op : FrameOp) (frame : Str) (arg : PExpr)
deriving Repr, DecidableEq

/-- `ast.RangeDefinition`: optional start/end/step expressions (`end` is a
reserved word in Lean, hence `stop`). -/
structure QRange where
  start : Option PExpr := none
  stop : Option PExpr := none
  step : Option PExpr := none
deriving Repr, DecidableEq

/-- Evaluate an expression in a call stack, returning the value and the
resulting stack (`Interpreter.visit` on expression nodes; frame builtins
mutate the stack). -/
def evalExpr : CallStack → PExpr → Except PErr (Value × CallStack)
  | cs, .intLit i => .ok (.vInt i, cs)
  | cs, .floatLit q => .ok (.vFloat q, cs)
  | cs, .boolLit b => .ok (.vBool b, cs)
  | cs, .ident n =>
    match visitIdentifier cs n with
    | .error e => .error e
    | .ok v => .ok (v, cs)
  | cs, .binary op l r =>
    match evalExpr cs l with
    | .error e => .error e
    | .ok lv =>
      match evalExpr lv.2 r with
      | .error e => .error e
      | .ok rv =>
        match binEval op lv.1 rv.1 with
        | .error e => .error e
        | .ok v => .ok (v, rv.2)
  | cs, .frameCall op fr arg =>
    -- visit_FunctionCall: push an activation record for the call, resolve the
    -- frame down the stack, evaluate the second argument, mutate the frame,
    -- pop the record; the call itself returns None.
    match cs.peek? with
    | none => .error .indexError
    | some top =>
      let cs1 := cs.push ⟨op.opName, .subroutine, top.nestingLevel + 1, []⟩
      match cs1.downStack fr with
      | none => .error (.keyError ("Could not find ".toList ++ fr ++ " in call stack".toList))
      | some r =>
        match assocGet? r.members fr with
        | some (.vFrame f) =>
          match evalExpr cs1 arg with
          | .error e => .error e
          | .ok av =>
            match ratView? av.1 with
            | none => .error .typeError
            | some q =>
              let f' :=
                match op with
                | .setPhase => interpSetPhase f q
                | .shiftPhase => interpShiftPhase f q
                | .setFrequency => f.set_frequency q
                | .shiftFrequency => f.shift_frequency q
              .ok (.vNone, (av.2.setInScope fr (.vFrame f')).popRec)
        | _ => .error .typeError

/-- Evaluate one optional component of a `RangeDefinition` with a default
(as an integer; `range(...)` raises `TypeError` on non-integers). -/
def evalIntPart (cs : CallStack) (dflt : Int) : Option PExpr →
    Except PErr (Int × CallStack)
  | none => .ok (dflt, cs)
  | some e =>
    match evalExpr cs e with
    | .error er => .error er
    | .ok v =>
      match intView? v.1 with
      | some i => .ok (i, v.2)
      | none => .error .typeError

/-- Evaluate the optional end component of a `RangeDefinition`
(`None` when absent). -/
def evalStopPart (cs : CallStack) : Option PExpr →
    Except PErr (Option Int × CallStack)
  | none => .ok (none, cs)
  | some e =>
    match evalExpr cs e with
    | .error er => .error er
    | .ok v =>
      match intView? v.1 with
      | some i => .ok (some i, v.2)
      | none => .error .typeError

/-- `Interpreter.visit_RangeDefinition`: `(start or 0, end or None, step or 1)`
(all three component expressions are visited when present). -/
def evalRange (cs : CallStack) (r : QRange) :
    Except PErr ((Int × Option Int × Int) × CallStack) :=
  match evalIntPart cs 0 r.start with
  | .error e => .error e
  | .ok startR =>
    match evalStopPart startR.2 r.stop with
    | .error e => .error e
    | .ok stopR =>
      match evalIntPart stopR.2 1 r.step with
      | .error e => .error e
      | .ok stepR => .ok ((startR.1, stopR.1, stepR.1), stepR.2)

/-- Worker for `pythonRange` with an increasing step. -/
def rangeUpGo (step : Int) : Nat → Int → Int → List Int
  | 0, _, _ => []
  | fuel + 1, i, stop => if i < stop then i :: rangeUpGo step fuel (i + step) stop else []

/-- Worker for `pythonRange` with a decreasing step. -/
def rangeDownGo (step : Int) : Nat → Int → Int → List Int
  | 0, _, _ => []
  | fuel + 1, i, stop => if stop < i then i :: rangeDownGo step fuel (i + step) stop else []

/-- Python `range(start, stop, step)` as a list: start inclusive, stop
exclusive (`step = 0` raises `ValueError` in Python and does not occur in
the embedded programs). -/
def pythonRange (start stop step : Int) : List Int :=
  if 0 < step then rangeUpGo step (stop - start).toNat start stop
  else if step < 0 then rangeDownGo step (start - stop).toNat start stop
  else []

mutual
/-- Statement fragment the embedded interpreter executes. -/
inductive PStmt where
  | classicalDecl (id : Str) (init : Option PExpr)
  | assign (id : Str) (rvalue : PExpr)
  | forIn (id : Str) (range : QRange) (body : PStmtList)
  | exprStmt (e : PExpr)

/-- Statement lists (program and loop bodies). -/
inductive PStmtList where
  | nil
  | cons (s : PStmt) (rest : PStmtList)
end

mutual
/-- Execute one statement (`visitLoops` is the interpreter's `visit_loops`
flag). `classicalDecl` is the default case of `visit_ClassicalDeclaration`
(bind the evaluated initializer — or `None` — in the peeked record);
`assign` is the `Identifier`-lvalue case of `visit_ClassicalAssignment`
(resolve the record down the stack first, then evaluate the rvalue into
it); `forIn` is `visit_ForInLoop` over a `RangeDefinition`. -/
def execStmt (visitLoops : Bool) : CallStack → PStmt → Except PErr CallStack
  | cs, .classicalDecl id init =>
    match (match init with
           | some e => evalExpr cs e
           | none => .ok (Value.vNone, cs)) with
    | .error e => .error e
    | .ok r =>
      match r.2.setInPeek? id r.1 with
      | some cs' => .ok cs'
      | none => .error .indexError
  | cs, .assign id rv =>
    match cs.downStack id with
    | none => .error (.keyError ("Could not find ".toList ++ id ++ " in call stack".toList))
    | some _ =>
      match evalExpr cs rv with
      | .error e => .error e
      | .ok r => .ok (r.2.setInScope id r.1)
  | cs, .forIn id rng body =>
    if visitLoops = false then .ok cs
    else
      match cs.peek? with
      | none => .error .indexError
      | some top =>
        match evalRange (cs.push ⟨"for_loop".toList, .loop, top.nestingLevel + 1, []⟩) rng with
        | .error e => .error e
        | .ok r =>
          match r.1.2.1 with
          | none => .error (.error .unhandled "unsupported set declaration in for loop".toList)
          | some stopV =>
            -- activation_record[name] = start, then rebind per iteration
            match r.2.setInPeek? id (.vInt r.1.1) with
            | none => .error .indexError
            | some cs2 =>
              match runLoop visitLoops id body cs2 (pythonRange r.1.1 stopV r.1.2.2) with
              | .error e => .error e
              | .ok cs3 => .ok cs3.popRec
  | cs, .exprStmt e =>
    match evalExpr cs e with
    | .error er => .error er
    | .ok r => .ok r.2
termination_by _ s => (sizeOf s, 0)
/-- Iterate a for-loop body over the values of the evaluated range. -/
def runLoop (visitLoops : Bool) (id : Str) (body : PStmtList) :
    CallStack → List Int → Except PErr CallStack
  | cs, [] => .ok cs
  | cs, i :: rest =>
    match cs.setInPeek? id (.vInt i) with
    | none => .error .indexError
    | some cs1 =>
      match execStmtList visitLoops cs1 body with
      | .error e => .error e
      | .ok cs2 => runLoop visitLoops id body cs2 rest
termination_by _ l => (sizeOf body, l.length)
/-- Execute a statement list in order. -/
def execStmtList (visitLoops : Bool) : CallStack → PStmtList → Except PErr CallStack
  | cs, .nil => .ok cs
  | cs, .cons s rest =>
    match execStmt visitLoops cs s with
    | .error e => .error e
    | .ok cs1 => execStmtList visitLoops cs1 rest
termination_by _ l => (sizeOf l, 0)
decreasing_by
  all_goals simp only [Prod.lex_iff, PStmt.forIn.sizeOf_spec,
    PStmtList.cons.sizeOf_spec, List.length_cons]
  all_goals omega
end

/-- The statement phase of `Interpreter.visit_Program`: execute the program's
statements inside the `"main"` PROGRAM activation record (the record the
program pushes, observed here before the context manager pops it). -/
def runProgramStmts (visitLoops : Bool) (p : PStmtList) : Except PErr CallStack :=
  execStmtList visitLoops ⟨[⟨"main".toList, .program, 1, []⟩]⟩ p

/-- `Interpreter.visit_Program`: the main record is pushed, the statements
run, and the context manager pops the record. -/
def interpVisitProgram (visitLoops : Bool) (p : PStmtList) : Except PErr CallStack :=
  (runProgramStmts visitLoops p).map CallStack.popRec

/-! ## `shipyard/passes/timing_constraints.py` -/

/-- Configuration of `TimingConstraints` (constructor defaults
`minimum_length=32`, `granularity=16`). -/
structure TimingConfig where
  minimum_length : Int := 32
  granularity : Int := 16
deriving Repr, DecidableEq

/-- The value `self.visit(node)` produces for a waveform argument or delay
duration inside `check_timing_constraints`: a number (a concrete sample
count), a numpy array (whose length is used), or `None` (unresolvable, e.g.
the result of an `executeTableEntry` call). -/
inductive DurVal where
  | num (n : Int)
  | arr (len : Nat)
  | noneV
deriving Repr, DecidableEq

/-- `TimingConstraints.check_timing_constraints`: `(valid?, length)`;
arrays use their length, `None` is trivially valid with length `-1`,
numbers must be at least `minimum_length` and divisible by `granularity`. -/
def checkTimingConstraints (cfg : TimingConfig) (v : DurVal) : Bool × Int :=
  match v with
  | .num n =>
    (decide (n ≥ cfg.minimum_length) && decide (n % cfg.granularity = 0), n)
  | .arr len =>
    (decide ((len : Int) ≥ cfg.minimum_length) &&
      decide ((len : Int) % cfg.granularity = 0), (len : Int))
  | .noneV => (true, -1)

/-- An entry of `self.flagged_wfs`: the flagged waveform node (embedded by
its evaluated duration value) and its length. -/
structure FlaggedWf where
  wfm : DurVal
  length : Int
deriving Repr, DecidableEq

/-- The argument of a `play`/`capture_*` call: either a (syntactically
recognized) `executeTableEntry` call, which is skipped, or a waveform
expression embedded by its evaluated duration value. -/
inductive PlayArg where
  | executeTableEntryArg
  | wfArg (v : DurVal)
deriving Repr, DecidableEq

/-- The statements `TimingConstraints` inspects: delay instructions,
`play`/`capture_*` calls, and everything else (which records nothing). -/
inductive TStmt where
  | delayStmt (dur : DurVal)
  | playStmt (arg : PlayArg)
  | otherStmt
deriving Repr, DecidableEq

/-- The visitor's effect on `self.flagged_wfs` for one statement
(`visit_DelayInstruction` and the `play`/`capture_*` case of
`visit_FunctionCall`). -/
def tcVisitStmt (cfg : TimingConfig) (flagged : List FlaggedWf) : TStmt → List FlaggedWf
  | .delayStmt d =>
    if (checkTimingConstraints cfg d).1 then flagged
    else flagged ++ [⟨d, (checkTimingConstraints cfg d).2⟩]
  | .playStmt .executeTableEntryArg => flagged
  | .playStmt (.wfArg v) =>
    if (checkTimingConstraints cfg v).1 then flagged
    else flagged ++ [⟨v, (checkTimingConstraints cfg v).2⟩]
  | .otherStmt => flagged

/-- Rendering of a flagged waveform entry inside
`construct_warning_message` (the embedded stand-in for
`openpulse.printer.dumps`). -/
def dumpDurVal : DurVal → Str
  | .num n => intChars n
  | .arr len => "array[".toList ++ natChars len ++ "]".toList
  | .noneV => "None".toList

/-- `TimingConstraints.construct_warning_message`: one block per flagged
waveform. -/
def constructWarningMessage (cfg : TimingConfig) (flagged : List FlaggedWf) : Str :=
  "waveform(s) do not meet timing constraints:\n\n".toList ++
    (flagged.map (fun wf =>
      "Waveform: ".toList ++ dumpDurVal wf.wfm ++
      "\n\tWaveform Length: ".toList ++ intChars wf.length ++
      ",\n\tSufficient Length: ".toList ++
      (if wf.length ≥ cfg.minimum_length then "True".toList else "False".toList) ++
      ",\n\tCorrect Granularity: ".toList ++
      (if wf.length % cfg.granularity = 0 then "True".toList else "False".toList) ++
      "\n\n".toList)).flatten

/-- `TimingConstraints.visit_Program`: visit every statement, accumulating
`flagged_wfs`; afterwards raise a single
`Error(ErrorCode.INVALID_WAVEFORM, message)` iff anything was flagged. -/
def tcVisitProgram (cfg : TimingConfig) (prog : List TStmt) : Except PErr Unit :=
  let flagged := prog.foldl (tcVisitStmt cfg) []
  if flagged.isEmpty then .ok ()
  else .error (.error .invalidWaveform (constructWarningMessage cfg flagged))

/-! ## Spec-side definitions and concrete example data used by the claims -/

/-- Spec-side description of a timing violation, following the claim's words:
a waveform play/capture argument or delay duration evaluating to a concrete
sample count `L` is a violation exactly when `L >= minimum_length` fails or
`L % granularity` is nonzero (arrays use their length); unresolvable (`None`)
durations and `executeTableEntry` arguments are never violations. -/
def tcViolation (cfg : TimingConfig) : TStmt → Option FlaggedWf
  | .delayStmt (.num n) =>
    if n < cfg.minimum_length ∨ ¬ n % cfg.granularity = 0 then some ⟨.num n, n⟩
    else none
  | .delayStmt (.arr len) =>
    if (len : Int) < cfg.minimum_length ∨ ¬ (len : Int) % cfg.granularity = 0 then
      some ⟨.arr len, (len : Int)⟩
    else none
  | .delayStmt .noneV => none
  | .playStmt (.wfArg (.num n)) =>
    if n < cfg.minimum_length ∨ ¬ n % cfg.granularity = 0 then some ⟨.num n, n⟩
    else none
  | .playStmt (.wfArg (.arr len)) =>
    if (len : Int) < cfg.minimum_length ∨ ¬ (len : Int) % cfg.granularity = 0 then
      some ⟨.arr len, (len : Int)⟩
    else none
  | .playStmt (.wfArg .noneV) => none
  | .playStmt .executeTableEntryArg => none
  | .otherStmt => none

/-- The program of claim C8: `int counter = 0; for i in [0:2:10] { counter =
counter + 1; }`. -/
def counterLoopProgram : PStmtList :=
  .cons (.classicalDecl "counter".toList (some (.intLit 0)))
    (.cons
      (.forIn "i".toList
        ⟨some (.intLit 0), some (.intLit 10), some (.intLit 2)⟩
        (.cons
          (.assign "counter".toList
            (.binary .add (.ident "counter".toList) (.intLit 1)))
          .nil))
      .nil)

/-- A concrete resolved frame (for the claim counterexamples/witnesses). -/
def exampleFrame : Frame :=
  { name := "frame0".toList, port := ⟨"ch1".toList⟩ }

/-- The C3 counterexample program: a chain of three declarations, each used
only by the next one (`int c = 1; int b = c; int a = b;`). -/
def chainProgram : QStmts :=
  .cons (.classicalDecl "c".toList (some (.intLit 1)))
    (.cons (.classicalDecl "b".toList (some (.ident "c".toList)))
      (.cons (.classicalDecl "a".toList (some (.ident "b".toList))) .nil))

/-- The C4 counterexample program: a single unused measurement defcal with an
empty body (`defcal measure $0 { }`). -/
def measureEmptyProgram : QStmts :=
  .cons (.calibrationDef "measure".toList [] ["$0".toList] none .nil) .nil

/-- The C1 counterexample candidate: `f` defined for 100 literal parameters
`1` followed by the literal parameter `3`. -/
def bigCandidate : FunctionSignature :=
  ⟨"f".toList, List.replicate 100 ['1'] ++ [['3']], [], []⟩

/-- The C1 counterexample call: `f` called with 100 literal arguments `1`
followed by the literal argument `2` (mismatching the candidate's final
literal `3`). -/
def bigCall : FunctionSignature :=
  ⟨"f".toList, List.replicate 100 ['1'] ++ [['2']], [], []⟩

/-- The spec's exclusion example: candidate `defcal f(3) $1`. -/
def literalCandidate : FunctionSignature := ⟨"f".toList, [['3']], ["$1".toList], []⟩

/-- The spec's exclusion example: candidate `defcal f(param) $1`. -/
def genericCandidate : FunctionSignature :=
  ⟨"f".toList, ["param".toList], ["$1".toList], []⟩

/-- The spec's exclusion example: the call `f(2) $1`. -/
def exampleCall : FunctionSignature := ⟨"f".toList, [['2']], ["$1".toList], []⟩

/-! ## Theorems

General helper lemmas come first, then one theorem (plus witness or
counterexample) per claim. -/

/-- Python float `%` with a positive divisor lands in `[0, b)`. -/
theorem pyMod_bounds {b : ℚ} (hb : 0 < b) (a : ℚ) :
    0 ≤ pyMod a b ∧ pyMod a b < b := by
  unfold pyMod
  have h1 : (⌊a / b⌋ : ℚ) * b ≤ a := (le_div_iff₀ hb).mp (Int.floor_le (a / b))
  have h2 : a < ((⌊a / b⌋ : ℚ) + 1) * b := (div_lt_iff₀ hb).mp (Int.lt_floor_add_one (a / b))
  constructor
  · nlinarith
  · nlinarith

/-- The phase wrap lands in the half-open interval `[-p, p)` for any positive
stand-in `p` for `np.pi`. -/
theorem wrapPhase_bounds {p : ℚ} (hp : 0 < p) (x : ℚ) :
    -p ≤ wrapPhase p x ∧ wrapPhase p x < p := by
  have h := pyMod_bounds (b := 2 * p) (by linarith) (x + p)
  unfold wrapPhase
  constructor
  · linarith [h.1]
  · linarith [h.2]

/-- `np.pi`'s float value is positive. -/
theorem npPi_pos : 0 < npPi := by norm_num [npPi]

/-- Claim C5 (amended): after a `set_phase` or `shift_phase` builtin call the
frame's phase equals the requested (resp. current-plus-shift) phase wrapped
into the half-open interval `[-π, π)`: at least `-π` and strictly less than
`π` (the claim's interval `(-π, π]` is corrected to `[-π, π)`). -/
theorem c5_phase_wrapped (f : Frame) (v : ℚ) :
    (interpSetPhase f v).phase = wrapPhase npPi v ∧
    (interpShiftPhase f v).phase = wrapPhase npPi (v + f.phase) ∧
    -npPi ≤ (interpSetPhase f v).phase ∧ (interpSetPhase f v).phase < npPi ∧
    -npPi ≤ (interpShiftPhase f v).phase ∧ (interpShiftPhase f v).phase < npPi := by
  refine ⟨rfl, rfl, ?_, ?_, ?_, ?_⟩
  · exact (wrapPhase_bounds npPi_pos v).1
  · exact (wrapPhase_bounds npPi_pos v).2
  · exact (wrapPhase_bounds npPi_pos (v + f.phase)).1
  · exact (wrapPhase_bounds npPi_pos (v + f.phase)).2

/-- Claim C5 counterexample: `set_phase(frame, -π)` stores exactly `-π`,
which is not strictly greater than `-π`, refuting the claimed interval
`(-π, π]`. -/
theorem c5_counterexample :
    (interpSetPhase exampleFrame (-npPi)).phase = -npPi ∧
    ¬ (-npPi < (interpSetPhase exampleFrame (-npPi)).phase) := by
  have h : (interpSetPhase exampleFrame (-npPi)).phase = -npPi := by
    show wrapPhase npPi (-npPi) = -npPi
    unfold wrapPhase pyMod
    norm_num
  exact ⟨h, by rw [h]; exact lt_irrefl _⟩

/-- Every time unit has a positive value. -/
theorem timeUnits_val_pos (u : TimeUnits) : 0 < u.val := by
  cases u <;> norm_num [TimeUnits.val]

/-- `set_unit` preserves the real time of a duration. -/
theorem set_unit_realTime (d : Duration) (u : TimeUnits) :
    (d.set_unit u).realTime = d.realTime := by
  unfold Duration.set_unit Duration.realTime
  have := timeUnits_val_pos u
  field_simp

/-- Claim C9: `advance_to` first converts the caller's duration argument in
place to the frame time's unit (same real time, new unit); then, when the
duration is not earlier than the frame time, the frame's time value becomes
the integer truncation of the converted duration's value with every other
field (name, port, frequency, phase, time unit) unchanged; when the
duration is strictly earlier, a `ValueError` is raised (with the argument
still converted). -/
theorem c9_advance_to (f : Frame) (d : Duration) :
    (f.advance_to d).1 = d.set_unit f.time.unit ∧
    (f.advance_to d).1.unit = f.time.unit ∧
    (f.advance_to d).1.realTime = d.realTime ∧
    (if d.realTime < f.time.realTime then (f.advance_to d).2 = none
     else (f.advance_to d).2 = some { f with
       time := ⟨((pyTrunc (d.set_unit f.time.unit).time : Int) : ℚ), f.time.unit⟩ }) := by
  have hreal := set_unit_realTime d f.time.unit
  have hunit : (d.set_unit f.time.unit).unit = f.time.unit := rfl
  have h1 : (f.advance_to d).1 = d.set_unit f.time.unit := by
    unfold Frame.advance_to
    dsimp only
    split <;> rfl
  refine ⟨h1, by rw [h1]; exact hunit, by rw [h1, hreal], ?_⟩
  unfold Frame.advance_to
  dsimp only
  have hval := timeUnits_val_pos f.time.unit
  have harg : (d.set_unit f.time.unit).time * (d.set_unit f.time.unit).unit.val
      / f.time.unit.val = (d.set_unit f.time.unit).time := by
    rw [hunit]
    field_simp
  by_cases h : d.realTime < f.time.realTime
  · have hcond : f.time.realTime > (d.set_unit f.time.unit).realTime := by
      rw [hreal]; exact h
    simp [h, hcond]
  · have hcond : ¬ f.time.realTime > (d.set_unit f.time.unit).realTime := by
      rw [hreal]; exact h
    simp [h, hcond, harg]

/-- Claim C8: with `visit_loops=True` the interpreter runs a `ForInLoop` over
the range `[0:2:10]` (`RangeDefinition(start=0, step=2, end=10)` ↦ Python
`range(0, 10, 2)`) by binding the loop variable to `0, 2, 4, 6, 8` — start
inclusive, end exclusive, step 2 — and executing the body exactly 5 times:
the counter program ends with `counter = 5` in the main record. -/
theorem c8_forin_range :
    pythonRange 0 10 2 = [0, 2, 4, 6, 8] ∧
    runProgramStmts true counterLoopProgram =
      .ok ⟨[⟨"main".toList, .program, 1, [("counter".toList, .vInt 5)]⟩]⟩ := by
  constructor
  · decide
  · simp [runProgramStmts, counterLoopProgram, execStmtList, execStmt, runLoop,
      evalRange, evalIntPart, evalStopPart, evalExpr, visitIdentifier, binEval,
      pythonRange, rangeUpGo, CallStack.setInPeek?, CallStack.setInScope,
      CallStack.downStack, downStackGo, setScopeGo, assocGet?, assocSet,
      CallStack.peek?, CallStack.push, CallStack.popRec, arithOp, intView?, pyTruthy,
      List.getLast?, List.dropLast]

/-- Claim C10: for the logical `and`/`or` operators (`binary_ops[7]` and
`binary_ops[8]`), `visit_BinaryExpression` always evaluates both operand
subexpressions — the right operand's state effects always occur, even when
the left operand already decides the result — and returns the operand value
selected by truthiness (for `and` the left value if falsy else the right
value; for `or` the left value if truthy else the right value), not a
normalized boolean. -/
theorem c10_logic_ops (s s1 s2 : CallStack) (l r : PExpr) (lv rv : Value)
    (hl : evalExpr s l = .ok (lv, s1)) (hr : evalExpr s1 r = .ok (rv, s2)) :
    evalExpr s (.binary .logicAnd l r) = .ok ((if pyTruthy lv then rv else lv), s2) ∧
    evalExpr s (.binary .logicOr l r) = .ok ((if pyTruthy lv then lv else rv), s2) := by
  constructor <;> simp [evalExpr, hl, hr, binEval]

/-- Claim C10 witness: a falsy left operand does not prevent the right
operand's `set_phase` side effect — `False && set_phase(frame0, 1.0)`
still mutates the frame's phase and the whole expression returns the left
operand value `False` itself (not a normalized result). -/
theorem c10_logic_ops_witness :
    evalExpr ⟨[⟨"main".toList, .program, 1, [("frame0".toList, .vFrame exampleFrame)]⟩]⟩
        (.binary .logicAnd (.boolLit false)
          (.frameCall .setPhase "frame0".toList (.floatLit 1))) =
      .ok ((if pyTruthy (.vBool false) then Value.vNone else .vBool false),
        ⟨[⟨"main".toList, .program, 1,
          [("frame0".toList, .vFrame (interpSetPhase exampleFrame 1))]⟩]⟩) :=
  (c10_logic_ops
    ⟨[⟨"main".toList, .program, 1, [("frame0".toList, .vFrame exampleFrame)]⟩]⟩
    ⟨[⟨"main".toList, .program, 1, [("frame0".toList, .vFrame exampleFrame)]⟩]⟩
    ⟨[⟨"main".toList, .program, 1,
      [("frame0".toList, .vFrame (interpSetPhase exampleFrame 1))]⟩]⟩
    (.boolLit false) (.frameCall .setPhase "frame0".toList (.floatLit 1))
    (.vBool false) Value.vNone rfl rfl).1

/-- Claim C4 (amended): `RemoveUnused` keeps a `CalibrationDefinition` exactly
when (its mangled signature matches nothing in the unused set AND its body
is non-empty after dead code inside the body was eliminated) OR it is named
`measure` — a `measure` defcal is kept even when unused with an empty body.
Stated for arbitrary unused/declared/`remove_assignment` state. -/
theorem c4_defcal_kept_iff (u d ra : List Str) (name : Str)
    (ps qs : List Str) (ret : Option Str) (body : QStmts) :
    (ruStmts u d ra (.cons (.calibrationDef name ps qs ret body) .nil)).1.isNil
        = false ↔
      (((sigOfDefcal name ps qs ret).matchSig u = [] ∧
          (ruStmts u d ra body).1.isNil = false)
        ∨ name = "measure".toList) := by
  simp only [ruStmts]
  split
  · rename_i hcond
    refine iff_of_true ?_ hcond
    cases ret
    · rfl
    · cases hhr : hasReturn (ruStmts u d ra body).1 <;> simp [hhr, QStmts.isNil]
  · rename_i hcond
    exact iff_of_false (by simp [ruStmts, QStmts.isNil]) hcond

unseal Rat.add Rat.mul Rat.sub Rat.inv in
/-- Claim C4 counterexample: the program `defcal measure $0 { }` — an unused
measurement defcal whose body is empty — is kept verbatim by `RemoveUnused`
(its mangled signature does match the unused set), contradicting the
claim's requirement that a defcal whose body is (or becomes) empty is
removed. -/
theorem c4_counterexample :
    removeUnused measureEmptyProgram = measureEmptyProgram ∧
    ¬ ((sigOfDefcal "measure".toList [] ["$0".toList] none).matchSig
        (determineUnused measureEmptyProgram).1 = []) := by
  exact ⟨rfl, by decide⟩

/-- Claim C3 counterexample: on the chain `int c = 1; int b = c; int a = b;`
(with nothing using `a`), the third fresh `RemoveUnused` pass still changes
the tree: two passes leave `int c = 1;` and the third removes it, so three
applications differ from two. -/
theorem c3_counterexample :
    ¬ (removeUnused^[3] chainProgram = removeUnused^[2] chainProgram) := by
  intro h
  rw [show removeUnused^[3] chainProgram = QStmts.nil from rfl] at h
  rw [show removeUnused^[2] chainProgram =
    QStmts.cons (.classicalDecl "c".toList (some (.intLit 1))) .nil from rfl] at h
  exact QStmts.noConfusion h

/-- `check_timing_constraints` validity for a concrete numeric length. -/
theorem checkNum_valid_iff (cfg : TimingConfig) (n : Int) :
    (checkTimingConstraints cfg (.num n)).1 = true ↔
      (n ≥ cfg.minimum_length ∧ n % cfg.granularity = 0) := by
  simp [checkTimingConstraints]

/-- `check_timing_constraints` validity for an array (by its length). -/
theorem checkArr_valid_iff (cfg : TimingConfig) (len : Nat) :
    (checkTimingConstraints cfg (.arr len)).1 = true ↔
      ((len : Int) ≥ cfg.minimum_length ∧ (len : Int) % cfg.granularity = 0) := by
  simp [checkTimingConstraints]

/-- The per-statement effect of `TimingConstraints` on `flagged_wfs` is to
append exactly the statement's violation (if any). -/
theorem tcVisitStmt_eq (cfg : TimingConfig) (acc : List FlaggedWf) (s : TStmt) :
    tcVisitStmt cfg acc s = acc ++ (tcViolation cfg s).toList := by
  have hnum : ∀ n : Int,
      (if (checkTimingConstraints cfg (.num n)).1 then acc
       else acc ++ [⟨.num n, (checkTimingConstraints cfg (.num n)).2⟩]) =
        acc ++ (if n < cfg.minimum_length ∨ ¬ n % cfg.granularity = 0
          then some (⟨.num n, n⟩ : FlaggedWf) else none).toList := by
    intro n
    by_cases hv : (checkTimingConstraints cfg (.num n)).1 = true
    · have hc := (checkNum_valid_iff cfg n).mp hv
      have hcond : ¬ (n < cfg.minimum_length ∨ ¬ n % cfg.granularity = 0) := by omega
      rw [if_pos hv, if_neg hcond]
      simp
    · have hv' : ¬ (n ≥ cfg.minimum_length ∧ n % cfg.granularity = 0) :=
        fun hc => hv ((checkNum_valid_iff cfg n).mpr hc)
      have hcond : n < cfg.minimum_length ∨ ¬ n % cfg.granularity = 0 := by omega
      rw [if_neg hv, if_pos hcond]
      simp [checkTimingConstraints]
  have harr : ∀ len : Nat,
      (if (checkTimingConstraints cfg (.arr len)).1 then acc
       else acc ++ [⟨.arr len, (checkTimingConstraints cfg (.arr len)).2⟩]) =
        acc ++ (if (len : Int) < cfg.minimum_length ∨ ¬ (len : Int) % cfg.granularity = 0
          then some (⟨.arr len, (len : Int)⟩ : FlaggedWf) else none).toList := by
    intro len
    by_cases hv : (checkTimingConstraints cfg (.arr len)).1 = true
    · have hc := (checkArr_valid_iff cfg len).mp hv
      have hcond : ¬ ((len : Int) < cfg.minimum_length ∨ ¬ (len : Int) % cfg.granularity = 0) := by
        omega
      rw [if_pos hv, if_neg hcond]
      simp
    · have hv' : ¬ ((len : Int) ≥ cfg.minimum_length ∧ (len : Int) % cfg.granularity = 0) :=
        fun hc => hv ((checkArr_valid_iff cfg len).mpr hc)
      have hcond : (len : Int) < cfg.minimum_length ∨ ¬ (len : Int) % cfg.granularity = 0 := by
        omega
      rw [if_neg hv, if_pos hcond]
      simp [checkTimingConstraints]
  cases s with
  | delayStmt d =>
    cases d with
    | num n => exact hnum n
    | arr len => exact harr len
    | noneV => simp [tcVisitStmt, tcViolation, checkTimingConstraints]
  | playStmt arg =>
    cases arg with
    | executeTableEntryArg => simp [tcVisitStmt, tcViolation]
    | wfArg v =>
      cases v with
      | num n => exact hnum n
      | arr len => exact harr len
      | noneV => simp [tcVisitStmt, tcViolation, checkTimingConstraints]
  | otherStmt => simp [tcVisitStmt, tcViolation]

/-- Characterization of the `down_stack` scan: it returns `some r` exactly
when the scanned list splits as `pre ++ r :: post` with `r` binding the
name and nothing in `pre` (the records scanned before `r`) binding it. -/
theorem downStackGo_some_iff (name : Str) :
    ∀ (l : List ActivationRecord) (r : ActivationRecord),
      downStackGo name l = some r ↔
        ∃ pre post, l = pre ++ r :: post ∧ (assocGet? r.members name).isSome = true ∧
          ∀ r' ∈ pre, assocGet? r'.members name = none
  | [], r => by
    constructor
    · intro h
      exact absurd h (by simp [downStackGo])
    · rintro ⟨pre, post, h, -, -⟩
      exact absurd h (by simp)
  | a :: tl, r => by
    by_cases ha : (assocGet? a.members name).isSome = true
    · rw [show downStackGo name (a :: tl) = some a from by simp [downStackGo, ha]]
      constructor
      · rintro h
        obtain rfl : a = r := by injection h
        exact ⟨[], tl, rfl, ha, by simp⟩
      · rintro ⟨pre, post, hl, hr, hpre⟩
        cases pre with
        | nil =>
          injection hl with h1 h2
          rw [h1]
        | cons p ps =>
          injection hl with h1 h2
          subst h1
          have hnone := hpre a (List.mem_cons_self a ps)
          rw [hnone] at ha
          simp at ha
    · rw [show downStackGo name (a :: tl) = downStackGo name tl from by simp [downStackGo, ha]]
      rw [downStackGo_some_iff name tl r]
      constructor
      · rintro ⟨pre, post, hl, hr, hpre⟩
        refine ⟨a :: pre, post, by rw [hl]; rfl, hr, ?_⟩
        intro r' hr'
        rcases List.mem_cons.mp hr' with h | h
        · subst h
          exact Option.not_isSome_iff_eq_none.mp ha
        · exact hpre r' h
      · rintro ⟨pre, post, hl, hr, hpre⟩
        cases pre with
        | nil =>
          injection hl with h1 h2
          subst h1
          exact absurd hr ha
        | cons p ps =>
          injection hl with h1 h2
          subst h1
          exact ⟨ps, post, h2, hr, fun r' h => hpre r' (List.mem_cons_of_mem _ h)⟩

/-- The `down_stack` scan misses when no scanned record binds the name. -/
theorem downStackGo_none (name : Str) :
    ∀ (l : List ActivationRecord),
      (∀ r ∈ l, assocGet? r.members name = none) → downStackGo name l = none
  | [], _ => rfl
  | a :: tl, h => by
    have ha := h a (List.mem_cons_self a tl)
    rw [show downStackGo name (a :: tl) = downStackGo name tl from by
      simp [downStackGo, ha]]
    exact downStackGo_none name tl (fun r hr => h r (List.mem_cons_of_mem _ hr))

/-- Claim C7: `down_stack(name)` scans the activation records from the top of
the stack downward and returns the first (nearest-to-top) record whose
members bind the name — the record above which no record binds it; when no
record on the stack binds the name, `visit_Identifier` fails with
`SemanticError(ErrorCode.ID_NOT_FOUND, ...)`. -/
theorem c7_down_stack (cs : CallStack) (name : Str) :
    (∀ r, cs.downStack name = some r ↔
      ∃ pre post, cs.records = pre ++ r :: post ∧
        (assocGet? r.members name).isSome = true ∧
        ∀ r' ∈ post, assocGet? r'.members name = none) ∧
    ((∀ r ∈ cs.records, assocGet? r.members name = none) →
      visitIdentifier cs name = .error (.semantic .idNotFound
        ("Identifier: ".toList ++ name ++ " not found in call stack".toList))) := by
  constructor
  · intro r
    rw [show cs.downStack name = downStackGo name cs.records.reverse from rfl]
    rw [downStackGo_some_iff]
    constructor
    · rintro ⟨pre, post, hl, hr, hpre⟩
      refine ⟨post.reverse, pre.reverse, ?_, hr, ?_⟩
      · have : cs.records.reverse.reverse = (pre ++ r :: post).reverse := by rw [hl]
        rw [List.reverse_reverse] at this
        rw [this]
        simp
      · intro r' hr'
        exact hpre r' (List.mem_reverse.mp hr')
    · rintro ⟨pre, post, hl, hr, hpost⟩
      refine ⟨post.reverse, pre.reverse, ?_, hr, ?_⟩
      · rw [hl]
        simp
      · intro r' hr'
        exact hpost r' (List.mem_reverse.mp hr')
  · intro hall
    have hnone : cs.downStack name = none := by
      rw [show cs.downStack name = downStackGo name cs.records.reverse from rfl]
      exact downStackGo_none name _ (fun r hr => hall r (List.mem_reverse.mp hr))
    unfold visitIdentifier
    rw [hnone]


/-- The statement-list part of the C6 fold (for any accumulator): the final
`flagged_wfs` is the accumulator followed by every violation in program
order. -/
theorem tc_foldl_eq (cfg : TimingConfig) :
    ∀ (prog : List TStmt) (acc : List FlaggedWf),
      prog.foldl (tcVisitStmt cfg) acc = acc ++ prog.filterMap (tcViolation cfg)
  | [], acc => by simp
  | s :: rest, acc => by
    rw [List.foldl_cons, tcVisitStmt_eq, tc_foldl_eq cfg rest, List.filterMap_cons]
    cases tcViolation cfg s <;> simp

/-- Claim C6: visiting a whole program accumulates exactly the violations
(a play/capture argument or delay duration with concrete sample count `L`
is flagged exactly when `L ≥ minimum_length` fails or `L % granularity` is
nonzero; unresolvable `None` durations and `executeTableEntry` arguments are
never flagged), and afterwards exactly one `Error` with code
`INVALID_WAVEFORM` is raised iff at least one violation was recorded, its
message enumerating every violation. -/
theorem c6_timing_constraints (cfg : TimingConfig) (prog : List TStmt) :
    prog.foldl (tcVisitStmt cfg) [] = prog.filterMap (tcViolation cfg) ∧
    tcVisitProgram cfg prog =
      (if prog.filterMap (tcViolation cfg) = [] then .ok ()
       else .error (.error .invalidWaveform
         (constructWarningMessage cfg (prog.filterMap (tcViolation cfg))))) := by
  have h := tc_foldl_eq cfg prog []
  rw [List.nil_append] at h
  refine ⟨h, ?_⟩
  unfold tcVisitProgram
  rw [h]
  rcases hfm : prog.filterMap (tcViolation cfg) with _ | ⟨a, l⟩ <;> simp

/-- Claim C7 witness: on a concrete stack whose single `PROGRAM` record does
not bind `x`, the lookup fails with `SemanticError(ID_NOT_FOUND)`. -/
theorem c7_down_stack_witness :
    visitIdentifier ⟨[⟨"PROGRAM".toList, .program, 1, [("y".toList, .vInt 1)]⟩]⟩
        "x".toList =
      .error (.semantic .idNotFound
        ("Identifier: ".toList ++ "x".toList ++ " not found in call stack".toList)) :=
  (c7_down_stack ⟨[⟨"PROGRAM".toList, .program, 1, [("y".toList, .vInt 1)]⟩]⟩
    "x".toList).2 (by decide)

/-- Every parameter-loop step of `MangledSignature.match` contributes at most 1. -/
theorem paramStep_le_one (n : Nat) (pf : Str × Str) : paramStep n pf ≤ 1 := by
  unfold paramStep
  split_ifs with h1 h2 h3
  · exact le_refl 1
  · norm_num
  · rw [div_le_one (by positivity)]
    have := Nat.cast_nonneg (α := ℚ) n
    linarith
  · norm_num

/-- Every qubit-loop step of `MangledSignature.match` contributes at most 1. -/
theorem qubitStep_le_one (nP nQ : Nat) (qf : Str × Str) :
    qubitStep nP nQ qf ≤ 1 := by
  unfold qubitStep
  split_ifs with h1 h2 h3
  · exact le_refl 1
  · rw [div_le_one (by positivity)]
    have hp := Nat.cast_nonneg (α := ℚ) nP
    have hq := Nat.cast_nonneg (α := ℚ) nQ
    nlinarith
  · norm_num
  · norm_num

/-- A sum of rationals each at most 1 is at most the number of summands. -/
theorem sum_le_card (l : List ℚ) (h : ∀ x ∈ l, x ≤ 1) : l.sum ≤ l.length := by
  induction l with
  | nil => simp
  | cons a t ih =>
    simp only [List.sum_cons, List.length_cons]
    have ha := h a (List.mem_cons_self a t)
    have ht := ih (fun x hx => h x (List.mem_cons_of_mem a hx))
    push_cast
    linarith

/-- A sum of rationals each at most 1, one of which is at most -100,
is at most the number of summands minus 101. -/
theorem sum_with_bad (l : List ℚ) (h : ∀ x ∈ l, x ≤ 1) (a : ℚ) (ha : a ∈ l)
    (hbad : a ≤ -100) : l.sum ≤ l.length - 101 := by
  obtain ⟨l1, l2, rfl⟩ := List.append_of_mem ha
  have h1 := sum_le_card l1 (fun x hx => h x (by simp [hx]))
  have h2 := sum_le_card l2 (fun x hx => h x (by simp [hx]))
  simp only [List.sum_append, List.sum_cons, List.length_append, List.length_cons]
  push_cast
  linarith

/-- Everything `FunctionSignature.match` returns scored at least 0. -/
theorem matchSig_mem_nonneg (self : FunctionSignature) (names : List Str) (s : Str)
    (h : s ∈ self.matchSig names) :
    0 ≤ msMatchScore s self.params self.qubits := by
  simp only [FunctionSignature.matchSig] at h
  split at h
  · simp at h
  · rw [List.mem_map] at h
    obtain ⟨kv, hkv, rfl⟩ := h
    rw [List.mem_filter] at hkv
    obtain ⟨hkept, _⟩ := hkv
    rw [List.mem_filter] at hkept
    obtain ⟨hdict, h0⟩ := hkept
    rw [List.mem_map] at hdict
    obtain ⟨t, ht, rfl⟩ := hdict
    simpa using h0

/-- Claim C1 (amended): when a call has at most 100 parameter-plus-qubit
positions, a candidate with a mismatched numeric-literal parameter token or a
conflicting physical-qubit token scores negative (the -100 / -1000 penalty
beats the at-most-+1 credit of every other position) and is excluded from
`FunctionSignature.match`. -/
theorem c1_mismatch_excluded (call : FunctionSignature) (sig : Str) (names : List Str)
    (hsize : call.params.length + call.qubits.length ≤ 100)
    (hmis :
      (∃ pf ∈ call.params.zip ((msParams? sig).getD []),
        is_number pf.2 = true ∧ pf.1 ≠ pf.2) ∨
      (∃ qf ∈ call.qubits.zip ((msQubits? sig).getD []),
        ¬ (qf.1 = qf.2 ∨ ('$' ∉ qf.1 ∧ '$' ∉ qf.2)) ∧
        ¬ ('$' ∈ qf.1 ∧ '$' ∉ qf.2) ∧ '$' ∈ qf.2)) :
    msMatchScore sig call.params call.qubits < 0 ∧
    sig ∉ call.matchSig names := by
  have hneg : msMatchScore sig call.params call.qubits < 0 := by
    unfold msMatchScore paramsScore qubitsScore
    set pl := call.params.zip ((msParams? sig).getD []) with hpl
    set ql := call.qubits.zip ((msQubits? sig).getD []) with hql
    have hplen : (pl.length : ℚ) ≤ call.params.length := by
      exact_mod_cast (by rw [hpl, List.length_zip]; exact min_le_left _ _ :
        pl.length ≤ call.params.length)
    have hqlen : (ql.length : ℚ) ≤ call.qubits.length := by
      exact_mod_cast (by rw [hql, List.length_zip]; exact min_le_left _ _ :
        ql.length ≤ call.qubits.length)
    have hsizeQ : (call.params.length : ℚ) + call.qubits.length ≤ 100 := by
      exact_mod_cast hsize
    have hpall : ∀ x ∈ pl.map (paramStep call.params.length), x ≤ 1 := by
      intro x hx
      rw [List.mem_map] at hx
      obtain ⟨pf, _, rfl⟩ := hx
      exact paramStep_le_one _ pf
    have hqall : ∀ x ∈ ql.map (qubitStep call.params.length call.qubits.length),
        x ≤ 1 := by
      intro x hx
      rw [List.mem_map] at hx
      obtain ⟨qf, _, rfl⟩ := hx
      exact qubitStep_le_one _ _ qf
    rcases hmis with ⟨pf, hmem, hnum, hne⟩ | ⟨qf, hmem, h1, h2, h3⟩
    · have hstep : paramStep call.params.length pf = -100 := by
        unfold paramStep
        rw [if_pos hnum, if_neg hne]
      have hbadmem : (-100 : ℚ) ∈ pl.map (paramStep call.params.length) := by
        rw [List.mem_map]
        exact ⟨pf, hmem, hstep⟩
      have hps := sum_with_bad _ hpall _ hbadmem le_rfl
      have hqs := sum_le_card _ hqall
      rw [List.length_map] at hps
      rw [List.length_map] at hqs
      linarith
    · have hstep : qubitStep call.params.length call.qubits.length qf = -1000 := by
        unfold qubitStep
        rw [if_neg h1, if_neg h2, if_pos h3]
      have hbadmem : (-1000 : ℚ) ∈
          ql.map (qubitStep call.params.length call.qubits.length) := by
        rw [List.mem_map]
        exact ⟨qf, hmem, hstep⟩
      have hqs := sum_with_bad _ hqall _ hbadmem (by norm_num)
      have hps := sum_le_card _ hpall
      rw [List.length_map] at hqs
      rw [List.length_map] at hps
      linarith
  exact ⟨hneg, fun hmem => absurd (matchSig_mem_nonneg call names sig hmem)
    (not_le.mpr hneg)⟩

set_option maxRecDepth 10000 in
/-- Claim C1 witness: the spec's own example — `f(2) $1` called against the
candidate `defcal f(3) $1` — is excluded with a negative score. -/
theorem c1_mismatch_excluded_witness :
    msMatchScore literalCandidate.mangle exampleCall.params exampleCall.qubits < 0 ∧
    literalCandidate.mangle ∉
      exampleCall.matchSig [literalCandidate.mangle, genericCandidate.mangle] :=
  c1_mismatch_excluded exampleCall literalCandidate.mangle
    [literalCandidate.mangle, genericCandidate.mangle] (by decide)
    (Or.inl (by decide))

set_option maxRecDepth 10000 in
unseal Rat.add Rat.mul Rat.sub Rat.inv in
/-- Claim C1 counterexample: with 101 parameters — 100 exactly matching
literals `1` and one mismatched literal (`2` against `3`) — the mismatch
penalty is fully offset, the total score is 0, and the candidate is returned
by `FunctionSignature.match` despite the literal mismatch. -/
theorem c1_counterexample :
    ((['2'],['3']) ∈ bigCall.params.zip ((msParams? bigCandidate.mangle).getD []) ∧
      is_number ['3'] = true ∧ ¬ (['2'] : Str) = ['3']) ∧
    bigCandidate.mangle ∈ bigCall.matchSig [bigCandidate.mangle] := by
  constructor
  · refine ⟨by decide, by decide, by decide⟩
  · decide

/-- A `RemoveUnused` traversal never grows a statement list. -/
theorem ruStmts_size_le (u d : List Str) :
    ∀ (ra : List Str) (l : QStmts), qstmtsSize (ruStmts u d ra l).1 ≤ qstmtsSize l
  | ra, .nil => by simp [ruStmts, qstmtsSize]
  | ra, .cons (.classicalDecl id init) rest => by
    have ih := ruStmts_size_le u d ra rest
    simp only [ruStmts, qstmtsSize]
    split
    · omega
    · simp only [qstmtsSize]; omega
  | ra, .cons (.constantDecl id init) rest => by
    have ih := ruStmts_size_le u d ra rest
    simp only [ruStmts, qstmtsSize]
    split
    · omega
    · simp only [qstmtsSize]; omega
  | ra, .cons (.subroutineDef id args body) rest => by
    have ihb := ruStmts_size_le u d ra body
    have ih := ruStmts_size_le u d (ruStmts u d ra body).2 rest
    simp only [ruStmts, qstmtsSize]
    split
    · omega
    · simp only [qstmtsSize]; omega
  | ra, .cons (.calibrationDef name ps qs ret body) rest => by
    have ihb := ruStmts_size_le u d ra body
    have ih1 := ruStmts_size_le u d (ruStmts u d ra body).2 rest
    have ih2 := ruStmts_size_le u d
      (setAdd (ruStmts u d ra body).2 ((sigOfDefcal name ps qs none).mangle)) rest
    cases ret with
    | none =>
      simp only [ruStmts, qstmtsSize]
      split
      · simp only [qstmtsSize]; omega
      · omega
    | some t =>
      simp only [ruStmts, qstmtsSize]
      split
      · split
        · simp only [qstmtsSize]; omega
        · simp only [qstmtsSize]; omega
      · omega
  | ra, .cons (.quantumGate name args qubits) rest => by
    have ih := ruStmts_size_le u d ra rest
    simp only [ruStmts, qstmtsSize]
    split
    · omega
    · simp only [qstmtsSize]; omega
  | ra, .cons (.quantumReset q) rest => by
    have ih := ruStmts_size_le u d ra rest
    simp only [ruStmts, qstmtsSize]
    split
    · omega
    · simp only [qstmtsSize]; omega
  | ra, .cons (.measureStmt q tgt) rest => by
    have ih := ruStmts_size_le u d ra rest
    cases tgt with
    | none =>
      simp only [ruStmts, qstmtsSize]
      split
      · omega
      · simp only [qstmtsSize, ite_self]; omega
    | some x =>
      simp only [ruStmts, qstmtsSize]
      split
      · omega
      · simp only [qstmtsSize]
        split <;> omega
  | ra, .cons (.returnStmt e) rest => by
    have ih := ruStmts_size_le u d ra rest
    simp only [ruStmts, qstmtsSize]
    omega
  | ra, .cons (.exprStmt e) rest => by
    have ih := ruStmts_size_le u d ra rest
    simp only [ruStmts, qstmtsSize]
    omega



/-- A `RemoveUnused` traversal that preserves the node count changed
nothing: every rewrite it performs (dropping a statement, clearing a defcal
return type, clearing a measurement target) strictly shrinks the tree. -/
theorem ruStmts_size_eq (u d : List Str) :
    ∀ (ra : List Str) (l : QStmts),
      qstmtsSize (ruStmts u d ra l).1 = qstmtsSize l → (ruStmts u d ra l).1 = l
  | ra, .nil => by simp [ruStmts]
  | ra, .cons (.classicalDecl id init) rest => by
    have hle := ruStmts_size_le u d ra rest
    intro h
    simp only [ruStmts, qstmtsSize] at h ⊢
    by_cases hid : id ∈ u
    · rw [if_pos hid] at h ⊢
      exact absurd h (by omega)
    · rw [if_neg hid] at h ⊢
      simp only [qstmtsSize] at h
      rw [ruStmts_size_eq u d ra rest (by omega)]
  | ra, .cons (.constantDecl id init) rest => by
    have hle := ruStmts_size_le u d ra rest
    intro h
    simp only [ruStmts, qstmtsSize] at h ⊢
    by_cases hid : id ∈ u
    · rw [if_pos hid] at h ⊢
      exact absurd h (by omega)
    · rw [if_neg hid] at h ⊢
      simp only [qstmtsSize] at h
      rw [ruStmts_size_eq u d ra rest (by omega)]
  | ra, .cons (.subroutineDef id args body) rest => by
    have hlb := ruStmts_size_le u d ra body
    have hl1 := ruStmts_size_le u d (ruStmts u d ra body).2 rest
    intro h
    simp only [ruStmts, qstmtsSize] at h ⊢
    by_cases hid : id ∈ u
    · rw [if_pos hid] at h ⊢
      exact absurd h (by omega)
    · rw [if_neg hid] at h ⊢
      simp only [qstmtsSize] at h
      rw [ruStmts_size_eq u d ra body (by omega),
        ruStmts_size_eq u d (ruStmts u d ra body).2 rest (by omega)]
  | ra, .cons (.calibrationDef name ps qs ret body) rest => by
    have hlb := ruStmts_size_le u d ra body
    have hl1 := ruStmts_size_le u d (ruStmts u d ra body).2 rest
    have hl2 := ruStmts_size_le u d
      (setAdd (ruStmts u d ra body).2 ((sigOfDefcal name ps qs none).mangle)) rest
    intro h
    cases ret with
    | none =>
      simp only [ruStmts, qstmtsSize] at h ⊢
      by_cases hc : ((sigOfDefcal name ps qs none).matchSig u = [] ∧
          (ruStmts u d ra body).1.isNil = false) ∨ name = "measure".toList
      · rw [if_pos hc] at h ⊢
        simp only [qstmtsSize] at h
        rw [ruStmts_size_eq u d ra body (by omega),
          ruStmts_size_eq u d (ruStmts u d ra body).2 rest (by omega)]
      · rw [if_neg hc] at h ⊢
        exact absurd h (by omega)
    | some t =>
      simp only [ruStmts, qstmtsSize] at h ⊢
      by_cases hc : ((sigOfDefcal name ps qs (some t)).matchSig u = [] ∧
          (ruStmts u d ra body).1.isNil = false) ∨ name = "measure".toList
      · rw [if_pos hc] at h ⊢
        by_cases hr : hasReturn (ruStmts u d ra body).1 = true
        · rw [if_pos hr] at h ⊢
          simp only [qstmtsSize] at h
          rw [ruStmts_size_eq u d ra body (by omega),
            ruStmts_size_eq u d (ruStmts u d ra body).2 rest (by omega)]
        · rw [if_neg hr] at h
          simp only [qstmtsSize] at h
          exact absurd h (by omega)
      · rw [if_neg hc] at h ⊢
        exact absurd h (by omega)
  | ra, .cons (.quantumGate name args qubits) rest => by
    have hle := ruStmts_size_le u d ra rest
    intro h
    simp only [ruStmts, qstmtsSize] at h ⊢
    by_cases hd : (sigOfGate name args qubits).matchSig d = []
    · rw [if_pos hd] at h ⊢
      exact absurd h (by omega)
    · rw [if_neg hd] at h ⊢
      simp only [qstmtsSize] at h
      rw [ruStmts_size_eq u d ra rest (by omega)]
  | ra, .cons (.quantumReset q) rest => by
    have hle := ruStmts_size_le u d ra rest
    intro h
    simp only [ruStmts, qstmtsSize] at h ⊢
    by_cases hd : (sigOfReset q).matchSig d = []
    · rw [if_pos hd] at h ⊢
      exact absurd h (by omega)
    · rw [if_neg hd] at h ⊢
      simp only [qstmtsSize] at h
      rw [ruStmts_size_eq u d ra rest (by omega)]
  | ra, .cons (.measureStmt q tgt) rest => by
    have hle := ruStmts_size_le u d ra rest
    intro h
    cases tgt with
    | none =>
      simp only [ruStmts, qstmtsSize, ite_self] at h ⊢
      by_cases hd : (sigOfMeasure q).matchSig d = []
      · rw [if_pos hd] at h ⊢
        exact absurd h (by omega)
      · rw [if_neg hd] at h ⊢
        simp only [qstmtsSize] at h
        rw [ruStmts_size_eq u d ra rest (by omega)]
    | some x =>
      simp only [ruStmts, qstmtsSize] at h ⊢
      by_cases hd : (sigOfMeasure q).matchSig d = []
      · rw [if_pos hd] at h ⊢
        exact absurd h (by omega)
      · rw [if_neg hd] at h ⊢
        by_cases hmem :
            (FunctionSignature.mangle ⟨"measure".toList, [], [q], []⟩) ∈ ra
        · rw [if_pos hmem] at h ⊢
          simp only [qstmtsSize] at h
          exact absurd h (by omega)
        · rw [if_neg hmem] at h ⊢
          simp only [qstmtsSize] at h
          rw [ruStmts_size_eq u d ra rest (by omega)]
  | ra, .cons (.returnStmt e) rest => by
    intro h
    simp only [ruStmts, qstmtsSize] at h ⊢
    rw [ruStmts_size_eq u d ra rest (by omega)]
  | ra, .cons (.exprStmt e) rest => by
    intro h
    simp only [ruStmts, qstmtsSize] at h ⊢
    rw [ruStmts_size_eq u d ra rest (by omega)]

/-- One fresh `RemoveUnused` pass never grows the program. -/
theorem removeUnused_size_le (p : QStmts) :
    qstmtsSize (removeUnused p) ≤ qstmtsSize p :=
  ruStmts_size_le (determineUnused p).1 (determineUnused p).2 [] p

/-- A fresh `RemoveUnused` pass that preserves the node count is the
identity on that program. -/
theorem removeUnused_size_eq (p : QStmts)
    (h : qstmtsSize (removeUnused p) = qstmtsSize p) : removeUnused p = p :=
  ruStmts_size_eq (determineUnused p).1 (determineUnused p).2 [] p h

/-- A self-map that never increases a natural measure and is the identity
wherever it preserves it reaches a fixpoint within `m x` iterations. -/
theorem iterate_fixpoint {α : Type} (f : α → α) (m : α → Nat)
    (hle : ∀ x, m (f x) ≤ m x) (heq : ∀ x, m (f x) = m x → f x = x) :
    ∀ (n : Nat) (x : α), m x ≤ n → f^[n] x = f^[n + 1] x
  | 0, x, hx => by
    have h0 : m (f x) = m x := Nat.le_antisymm (hle x) (by omega)
    simp [heq x h0]
  | n + 1, x, hx => by
    by_cases hfx : m (f x) = m x
    · have hid := heq x hfx
      rw [Function.iterate_succ_apply f (n + 1) x, hid,
        Function.iterate_succ_apply f n x, hid]
    · have hlt : m (f x) ≤ n := by
        have := hle x
        omega
      rw [Function.iterate_succ_apply f (n + 1) x,
        Function.iterate_succ_apply f n x]
      exact iterate_fixpoint f m hle heq n (f x) hlt

/-- Claim C3 (amended): a fresh `RemoveUnused` pass never grows the tree
and is the identity whenever it preserves the node count, so iterating it
reaches a fixpoint after at most `qstmtsSize p` passes; two passes are not
always enough (see the counterexample: a chain of three unused declarations
still changes on the third pass). -/
theorem c3_fixpoint (p : QStmts) :
    qstmtsSize (removeUnused p) ≤ qstmtsSize p ∧
    removeUnused^[qstmtsSize p] p = removeUnused^[qstmtsSize p + 1] p :=
  ⟨removeUnused_size_le p,
    iterate_fixpoint removeUnused qstmtsSize removeUnused_size_le
      removeUnused_size_eq (qstmtsSize p) p le_rfl⟩

/-- The skip counter of `splitGo` consumes exactly the remaining separator characters. -/
theorem splitGo_skip (c0 : Char) (sRest : Str) :
    ∀ (x y acc : Str), splitGo c0 sRest (x ++ y) acc x.length = splitGo c0 sRest y acc 0
  | [], y, acc => rfl
  | ch :: x', y, acc => by
    show splitGo c0 sRest (ch :: (x' ++ y)) acc (x'.length + 1) = _
    rw [show splitGo c0 sRest (ch :: (x' ++ y)) acc (x'.length + 1) =
      splitGo c0 sRest (x' ++ y) acc x'.length from rfl]
    exact splitGo_skip c0 sRest x' y acc

/-- `splitGo` on a string free of the separator yields a single chunk. -/
theorem splitGo_no (c0 : Char) (sRest : Str) :
    ∀ (l acc : Str), ¬ ((c0 :: sRest) <:+: l) → splitGo c0 sRest l acc 0 = [acc ++ l]
  | [], acc, _ => by simp [splitGo]
  | ch :: cs, acc, h => by
    rw [show splitGo c0 sRest (ch :: cs) acc 0 =
      (if (c0 :: sRest).isPrefixOf (ch :: cs) then
        acc :: splitGo c0 sRest cs [] sRest.length
      else splitGo c0 sRest cs (acc ++ [ch]) 0) from rfl]
    rw [if_neg (fun hp => h ((List.isPrefixOf_iff_prefix.mp hp).isInfix))]
    rw [splitGo_no c0 sRest cs (acc ++ [ch]) (fun hi => h (List.infix_cons hi))]
    simp

/-- `splitGo` cuts at the first separator occurrence: anything earlier would
be an occurrence inside `a ++ sep.dropLast`. -/
theorem splitGo_first (c0 : Char) (sRest b : Str) :
    ∀ (a acc : Str), ¬ ((c0 :: sRest) <:+: (a ++ (c0 :: sRest).dropLast)) →
      splitGo c0 sRest (a ++ (c0 :: sRest) ++ b) acc 0 =
        (acc ++ a) :: splitGo c0 sRest b [] 0
  | [], acc, _ => by
    rw [show ([] : Str) ++ (c0 :: sRest) ++ b = c0 :: (sRest ++ b) from by simp]
    rw [show splitGo c0 sRest (c0 :: (sRest ++ b)) acc 0 =
      (if (c0 :: sRest).isPrefixOf (c0 :: (sRest ++ b)) then
        acc :: splitGo c0 sRest (sRest ++ b) [] sRest.length
      else splitGo c0 sRest (sRest ++ b) (acc ++ [c0]) 0) from rfl]
    rw [if_pos (List.isPrefixOf_iff_prefix.mpr
      (by rw [show c0 :: (sRest ++ b) = (c0 :: sRest) ++ b from rfl]
          exact List.prefix_append _ _))]
    rw [splitGo_skip c0 sRest sRest b []]
    simp
  | ch :: a', acc, h => by
    have hno' : ¬ ((c0 :: sRest) <:+: (a' ++ (c0 :: sRest).dropLast)) := by
      intro hi
      apply h
      rw [show (ch :: a') ++ (c0 :: sRest).dropLast =
        ch :: (a' ++ (c0 :: sRest).dropLast) from rfl]
      exact List.infix_cons hi
    have hpre : ¬ ((c0 :: sRest).isPrefixOf (ch :: (a' ++ (c0 :: sRest) ++ b)) = true) := by
      intro hp
      apply h
      have hp' := List.isPrefixOf_iff_prefix.mp hp
      have hX : ((ch :: a') ++ (c0 :: sRest).dropLast) <+:
          (ch :: (a' ++ (c0 :: sRest) ++ b)) := by
        refine ⟨[(c0 :: sRest).getLast (by simp)] ++ b, ?_⟩
        rw [show ch :: (a' ++ (c0 :: sRest) ++ b) =
          (ch :: a') ++ ((c0 :: sRest) ++ b) from by simp]
        rw [List.append_assoc]
        congr 1
        rw [← List.append_assoc]
        congr 1
        exact List.dropLast_append_getLast (by simp)
      have hlen : (c0 :: sRest).length ≤
          ((ch :: a') ++ (c0 :: sRest).dropLast).length := by
        simp [List.length_dropLast]
      rcases List.prefix_or_prefix_of_prefix hp' hX with hc | hc
      · exact hc.isInfix
      · have heq := hc.eq_of_length (le_antisymm hc.length_le hlen)
        rw [heq]
    rw [show (ch :: a') ++ (c0 :: sRest) ++ b =
      ch :: (a' ++ (c0 :: sRest) ++ b) from by simp]
    rw [show splitGo c0 sRest (ch :: (a' ++ (c0 :: sRest) ++ b)) acc 0 =
      (if (c0 :: sRest).isPrefixOf (ch :: (a' ++ (c0 :: sRest) ++ b)) then
        acc :: splitGo c0 sRest (a' ++ (c0 :: sRest) ++ b) [] sRest.length
      else splitGo c0 sRest (a' ++ (c0 :: sRest) ++ b) (acc ++ [ch]) 0) from rfl]
    rw [if_neg hpre]
    rw [splitGo_first c0 sRest b a' (acc ++ [ch]) hno']
    simp

/-- Python `split`: a string not containing the separator is one chunk. -/
theorem pySplit_no (sep l : Str) (hsep : sep ≠ []) (h : ¬ sep <:+: l) :
    pySplit sep l = [l] := by
  cases sep with
  | nil => exact absurd rfl hsep
  | cons c0 cs => exact splitGo_no c0 cs l [] h

/-- Python `split` cuts at the first separator occurrence. -/
theorem pySplit_first (sep a b : Str) (hsep : sep ≠ [])
    (h : ¬ sep <:+: (a ++ sep.dropLast)) :
    pySplit sep (a ++ sep ++ b) = a :: pySplit sep b := by
  cases sep with
  | nil => exact absurd rfl hsep
  | cons c0 cs =>
    show splitGo c0 cs (a ++ (c0 :: cs) ++ b) [] 0 = a :: splitGo c0 cs b [] 0
    rw [splitGo_first c0 cs b a [] h]
    simp

/-- Python `split` on a string with exactly one separator occurrence. -/
theorem pySplit_single (sep a b : Str) (hsep : sep ≠ [])
    (h1 : ¬ sep <:+: (a ++ sep.dropLast)) (h2 : ¬ sep <:+: b) :
    pySplit sep (a ++ sep ++ b) = [a, b] := by
  rw [pySplit_first sep a b hsep h1, pySplit_no sep b hsep h2]

/-- An infix of `x ++ y` lies in `x`, in `y`, or straddles the boundary. -/
theorem infix_append_cases {s x y : Str} (h : s <:+: x ++ y) :
    s <:+: x ∨ s <:+: y ∨
      ∃ s1 s2, s = s1 ++ s2 ∧ s1 ≠ [] ∧ s2 ≠ [] ∧ s1 <:+ x ∧ s2 <+: y := by
  obtain ⟨t, u, htu⟩ := h
  have h1 : t ++ (s ++ u) = x ++ y := by rw [← htu]; simp
  rcases List.append_eq_append_iff.mp h1 with ⟨a', hx, hsu⟩ | ⟨k, ht, hy⟩
  · rcases List.append_eq_append_iff.mp hsu with ⟨k, ha', hu⟩ | ⟨k, hs, hy⟩
    · exact Or.inl ⟨t, k, by rw [hx, ha']; simp⟩
    · by_cases ha0 : a' = []
      · subst ha0
        rw [List.nil_append] at hs
        exact Or.inr (Or.inl (List.IsPrefix.isInfix ⟨u, by rw [← hs] at hy; exact hy.symm⟩))
      · by_cases hk0 : k = []
        · subst hk0
          rw [List.append_nil] at hs
          exact Or.inl (List.IsSuffix.isInfix (by rw [hs]; exact ⟨t, hx.symm⟩))
        · exact Or.inr (Or.inr ⟨a', k, hs, ha0, hk0, ⟨t, hx.symm⟩, ⟨u, hy.symm⟩⟩)
  · exact Or.inr (Or.inl ⟨k, u, by rw [hy]; simp⟩)

/-- A pattern starting with `_` cannot occur in an underscore-free string. -/
theorem not_infix_underscore {t x : Str} (hx : '_' ∉ x) : ¬ ('_' :: t) <:+: x :=
  fun h => hx (h.subset (List.mem_cons_self _ _))

/-- The right part of a straddling occurrence of `_ :: t` is a suffix of `t`. -/
theorem cross_piece {t s1 s2 : Str} (h : '_' :: t = s1 ++ s2) (h1 : s1 ≠ []) :
    s2 <:+ t := by
  cases s1 with
  | nil => exact absurd rfl h1
  | cons a s1' =>
    rw [List.cons_append] at h
    injection h with _ h2
    exact ⟨s1', h2.symm⟩

/-- Boundary kill (right): `_ :: t` cannot straddle into `y` when the head of
`y` is not a character of `t`. -/
theorem not_infix_append_R {t x y : Str}
    (hx : ¬ ('_' :: t) <:+: x) (hy : ¬ ('_' :: t) <:+: y)
    (hh : ∀ c, y.head? = some c → c ∉ t) : ¬ ('_' :: t) <:+: (x ++ y) := by
  intro h
  rcases infix_append_cases h with h | h | ⟨s1, s2, heq, h1, h2, hsx, hpy⟩
  · exact hx h
  · exact hy h
  · have hs2t : s2 <:+ t := cross_piece heq h1
    cases s2 with
    | nil => exact h2 rfl
    | cons c s2' =>
      have hcy : y.head? = some c := by
        obtain ⟨r, hr⟩ := hpy
        rw [← hr]
        rfl
      exact hh c hcy (hs2t.subset (List.mem_cons_self c s2'))

/-- Boundary kill (left): `_ :: t` cannot straddle out of an underscore-free `x`. -/
theorem not_infix_append_L {t x y : Str} (hx : '_' ∉ x)
    (hy : ¬ ('_' :: t) <:+: y) : ¬ ('_' :: t) <:+: (x ++ y) := by
  intro h
  rcases infix_append_cases h with h | h | ⟨s1, s2, heq, h1, h2, hsx, hpy⟩
  · exact not_infix_underscore hx h
  · exact hy h
  · cases s1 with
    | nil => exact h1 rfl
    | cons a s1' =>
      rw [List.cons_append] at heq
      injection heq with ha _
      rw [← ha] at hsx
      exact hx (hsx.subset (List.mem_cons_self _ _))

/-- A prefix of `x ++ y` is a prefix of `x` or extends it into `y`. -/
theorem prefix_append_cases {s x y : Str} (h : s <+: x ++ y) :
    s <+: x ∨ ∃ s2, s = x ++ s2 ∧ s2 <+: y := by
  rcases List.prefix_or_prefix_of_prefix h (List.prefix_append x y) with hc | hc
  · exact Or.inl hc
  · obtain ⟨s2, hs2⟩ := hc
    refine Or.inr ⟨s2, hs2.symm, ?_⟩
    rw [← hs2] at h
    exact (List.prefix_append_right_inj x).mp h

/-- An underscore-free prefix of `tok ++ _ :: w` is a prefix of `tok`. -/
theorem prefix_append_underscore {t tok w : Str} (hu : '_' ∉ t)
    (h : t <+: tok ++ '_' :: w) : t <+: tok := by
  rcases prefix_append_cases h with h | ⟨s2, hs, hp⟩
  · exact h
  · cases s2 with
    | nil => rw [hs, List.append_nil]
    | cons c s2' =>
      have hc : c = '_' := (List.cons_prefix_cons.mp hp).1
      exfalso
      apply hu
      rw [hs, hc]
      exact List.mem_append_right _ (List.mem_cons_self _ _)

/-- `Nat.digitChar` of a decimal digit is a digit character. -/
theorem digitChar_isDigit {n : Nat} (h : n < 10) : (Nat.digitChar n).isDigit = true := by
  interval_cases n <;> decide

/-- Every character of a decimal rendering is a digit. -/
theorem natCharsGo_digit : ∀ (fuel n : Nat), ∀ c ∈ natCharsGo fuel n, c.isDigit = true
  | 0, n => by simp [natCharsGo]
  | fuel + 1, n => by
    intro c hc
    rw [natCharsGo] at hc
    by_cases h10 : n < 10
    · rw [if_pos h10] at hc
      rw [List.mem_singleton] at hc
      rw [hc]
      exact digitChar_isDigit h10
    · rw [if_neg h10] at hc
      rcases List.mem_append.mp hc with hc | hc
      · exact natCharsGo_digit fuel (n / 10) c hc
      · rw [List.mem_singleton] at hc
        rw [hc]
        exact digitChar_isDigit (Nat.mod_lt n (by omega))

/-- The decimal rendering of a natural number is nonempty. -/
theorem natChars_ne (n : Nat) : natChars n ≠ [] := by
  rw [natChars, natCharsGo]
  split <;> simp

/-- Decimal renderings contain no underscore. -/
theorem underscore_notin_natChars (n : Nat) : '_' ∉ natChars n :=
  fun h => absurd (natCharsGo_digit (n + 1) n '_' h) (by decide)

theorem head_notin_of_natChars_append {n : Nat} {rest t : Str}
    (ht : ∀ c ∈ t, c.isDigit = false) :
    ∀ c, (natChars n ++ rest).head? = some c → c ∉ t := by
  intro c hc hmem
  cases hnc : natChars n with
  | nil => exact natChars_ne n hnc
  | cons d ds =>
    rw [hnc, List.cons_append, List.head?_cons] at hc
    injection hc with hdc
    have hd : d.isDigit = true := by
      apply natCharsGo_digit (n + 1) n d
      show d ∈ natChars n
      rw [hnc]
      exact List.mem_cons_self d ds
    rw [hdc] at hd
    rw [ht c hmem] at hd
    exact Bool.false_ne_true hd

/-- The head of `_ :: w` is not a character of an underscore-free `t`. -/
theorem head_underscore_notin {t : Str} (hu : '_' ∉ t) (w : Str) :
    ∀ c, (('_' :: w) : Str).head? = some c → c ∉ t := by
  intro c hc
  rw [List.head?_cons] at hc
  injection hc with hc
  rw [← hc]
  exact hu

/-- An underscore-join of a nonempty token list followed by `_ :: w` starts with
the first token and an underscore. -/
theorem join_cons_shape (tok : Str) (rest : List Str) (w : Str) :
    ∃ z, pyJoin ['_'] (tok :: rest) ++ '_' :: w = tok ++ '_' :: z := by
  cases rest with
  | nil => exact ⟨w, rfl⟩
  | cons r rs =>
    refine ⟨pyJoin ['_'] (r :: rs) ++ '_' :: w, ?_⟩
    rw [show pyJoin ['_'] (tok :: r :: rs) =
      tok ++ ['_'] ++ pyJoin ['_'] (r :: rs) from rfl]
    simp

/-- No occurrence of `_ :: t` inside an underscore-join of clean tokens
followed by `_ :: w`, given none at `_ :: w` itself. -/
theorem not_infix_join_append {t : Str} (hu : '_' ∉ t) :
    ∀ (toks : List Str) (w : Str),
      (∀ tok ∈ toks, '_' ∉ tok ∧ ¬ (t <+: tok)) →
      ¬ ('_' :: t) <:+: ('_' :: w) →
      ¬ ('_' :: t) <:+: (pyJoin ['_'] toks ++ '_' :: w)
  | [], w, _, hw => by simpa [pyJoin] using hw
  | [tok], w, htoks, hw => by
    rw [show pyJoin ['_'] [tok] = tok from rfl]
    exact not_infix_append_R (not_infix_underscore (htoks tok (by simp)).1) hw
      (head_underscore_notin hu w)
  | tok :: tok2 :: rest, w, htoks, hw => by
    rw [show pyJoin ['_'] (tok :: tok2 :: rest) ++ '_' :: w =
      tok ++ '_' :: (pyJoin ['_'] (tok2 :: rest) ++ '_' :: w) from by
        rw [show pyJoin ['_'] (tok :: tok2 :: rest) =
          tok ++ ['_'] ++ pyJoin ['_'] (tok2 :: rest) from rfl]
        simp]
    refine not_infix_append_R (not_infix_underscore (htoks tok (by simp)).1) ?_
      (head_underscore_notin hu _)
    intro h
    rcases List.infix_cons_iff.mp h with hp | hi
    · have ht' := (List.cons_prefix_cons.mp hp).2
      obtain ⟨z, hz⟩ := join_cons_shape tok2 rest w
      rw [hz] at ht'
      exact (htoks tok2 (by simp)).2 (prefix_append_underscore hu ht')
    · exact not_infix_join_append hu (tok2 :: rest) w
        (fun tok' h' => htoks tok' (by simp [h'])) hw hi

/-- No occurrence of `_ :: t` in a mangled token section
(optional leading underscore, underscore-join, next separator). -/
theorem not_infix_sect {t : Str} (hu : '_' ∉ t) (toks : List Str) (w : Str)
    (htoks : ∀ tok ∈ toks, '_' ∉ tok ∧ ¬ (t <+: tok))
    (hw : ¬ ('_' :: t) <:+: ('_' :: w)) :
    ¬ ('_' :: t) <:+:
      ((if toks.length > 0 then ['_'] else []) ++ (pyJoin ['_'] toks ++ '_' :: w)) := by
  cases toks with
  | nil => simpa [pyJoin] using hw
  | cons tok rest =>
    rw [if_pos (by simp)]
    rw [show (['_'] : Str) ++ (pyJoin ['_'] (tok :: rest) ++ '_' :: w) =
      '_' :: (pyJoin ['_'] (tok :: rest) ++ '_' :: w) from rfl]
    intro h
    rcases List.infix_cons_iff.mp h with hp | hi
    · have ht' := (List.cons_prefix_cons.mp hp).2
      obtain ⟨z, hz⟩ := join_cons_shape tok rest w
      rw [hz] at ht'
      exact (htoks tok (by simp)).2 (prefix_append_underscore hu ht')
    · exact not_infix_join_append hu (tok :: rest) w htoks hw hi

/-- Splitting on `_` cuts after an underscore-free first chunk. -/
theorem pySplit_underscore_cons (a b : Str) (ha : '_' ∉ a) :
    pySplit ['_'] (a ++ '_' :: b) = a :: pySplit ['_'] b := by
  rw [show a ++ '_' :: b = a ++ ['_'] ++ b from by simp]
  refine pySplit_first ['_'] a b (by simp) ?_
  rw [show (['_'] : Str).dropLast = [] from rfl, List.append_nil]
  exact not_infix_underscore (t := []) ha

/-- Splitting an underscore-join of underscore-free tokens recovers the tokens. -/
theorem pySplit_join : ∀ (toks : List Str), (∀ tok ∈ toks, '_' ∉ tok) → toks ≠ [] →
    pySplit ['_'] (pyJoin ['_'] toks) = toks
  | [], _, hne => absurd rfl hne
  | [tok], htoks, _ => by
    rw [show pyJoin ['_'] [tok] = tok from rfl]
    exact pySplit_no ['_'] tok (by simp) (not_infix_underscore (t := []) (htoks tok (by simp)))
  | tok :: tok2 :: rest, htoks, _ => by
    rw [show pyJoin ['_'] (tok :: tok2 :: rest) =
      tok ++ '_' :: pyJoin ['_'] (tok2 :: rest) from by
        rw [show pyJoin ['_'] (tok :: tok2 :: rest) =
          tok ++ ['_'] ++ pyJoin ['_'] (tok2 :: rest) from rfl]
        simp]
    rw [pySplit_underscore_cons tok _ (htoks tok (by simp))]
    rw [pySplit_join (tok2 :: rest) (fun tok' h' => htoks tok' (by simp [h'])) (by simp)]

/-- The token-list accessor computation: length prefix, optional underscore and
join, split on `_`, drop the length chunk. -/
theorem msTokens (n : Nat) (toks : List Str) (htoks : ∀ tok ∈ toks, '_' ∉ tok) :
    (pySplit ['_'] (natChars n ++
      ((if toks.length > 0 then ['_'] else []) ++ pyJoin ['_'] toks))).drop 1 = toks := by
  cases toks with
  | nil =>
    rw [show ((if ([] : List Str).length > 0 then ['_'] else []) ++
      pyJoin ['_'] ([] : List Str)) = ([] : Str) from rfl, List.append_nil]
    rw [pySplit_no ['_'] (natChars n) (by simp)
      (not_infix_underscore (t := []) (underscore_notin_natChars n))]
    rfl
  | cons tok rest =>
    rw [if_pos (by simp)]
    rw [show (['_'] : Str) ++ pyJoin ['_'] (tok :: rest) =
      '_' :: pyJoin ['_'] (tok :: rest) from rfl]
    rw [pySplit_underscore_cons (natChars n) _ (underscore_notin_natChars n)]
    rw [pySplit_join (tok :: rest) htoks (by simp)]
    rfl

/-- Single-occurrence split, specialised to the `_ZN` separator. -/
theorem pySplit_single_ZN (a b : Str)
    (h1 : ¬ ((['_','Z','N'] : Str) <:+: (a ++ ['_','Z'])))
    (h2 : ¬ ((['_','Z','N'] : Str) <:+: b)) :
    pySplit ['_','Z','N'] (a ++ ['_','Z','N'] ++ b) = [a, b] := by
  refine pySplit_single ['_','Z','N'] a b (by simp) ?_ h2
  rw [show (['_','Z','N'] : Str).dropLast = ['_','Z'] from rfl]
  exact h1

/-- Single-occurrence split, specialised to the `_PN` separator. -/
theorem pySplit_single_PN (a b : Str)
    (h1 : ¬ ((['_','P','N'] : Str) <:+: (a ++ ['_','P'])))
    (h2 : ¬ ((['_','P','N'] : Str) <:+: b)) :
    pySplit ['_','P','N'] (a ++ ['_','P','N'] ++ b) = [a, b] := by
  refine pySplit_single ['_','P','N'] a b (by simp) ?_ h2
  rw [show (['_','P','N'] : Str).dropLast = ['_','P'] from rfl]
  exact h1

/-- Single-occurrence split, specialised to the `_QN` separator. -/
theorem pySplit_single_QN (a b : Str)
    (h1 : ¬ ((['_','Q','N'] : Str) <:+: (a ++ ['_','Q'])))
    (h2 : ¬ ((['_','Q','N'] : Str) <:+: b)) :
    pySplit ['_','Q','N'] (a ++ ['_','Q','N'] ++ b) = [a, b] := by
  refine pySplit_single ['_','Q','N'] a b (by simp) ?_ h2
  rw [show (['_','Q','N'] : Str).dropLast = ['_','Q'] from rfl]
  exact h1

/-- Single-occurrence split, specialised to the `_R` separator. -/
theorem pySplit_single_R (a b : Str)
    (h1 : ¬ ((['_','R'] : Str) <:+: (a ++ ['_'])))
    (h2 : ¬ ((['_','R'] : Str) <:+: b)) :
    pySplit ['_','R'] (a ++ ['_','R'] ++ b) = [a, b] := by
  refine pySplit_single ['_','R'] a b (by simp) ?_ h2
  rw [show (['_','R'] : Str).dropLast = ['_'] from rfl]
  exact h1

/-- Peel one character: not a prefix here and no occurrence later. -/
theorem not_infix_cons_of {s : Str} {c : Char} {l : Str}
    (hp : ¬ s <+: c :: l) (hi : ¬ s <:+: l) : ¬ s <:+: c :: l := fun h =>
  (List.infix_cons_iff.mp h).elim hp hi

/-- Claim C2 (amended): `MangledSignature(mangle(s))` recovers all four fields
exactly, provided the tokens are free of the mangling delimiters: the name is
nonempty, does not start with a digit and contains none of `_ZN`/`_PN`/`_QN`/`_R`;
each parameter and qubit token contains no underscore and does not start with
`PN`, `QN` or `R`; and the return type contains none of `_PN`/`_QN`/`_R`. -/
theorem c2_roundtrip (N : Str) (Ps Qs : List Str) (R : Str)
    (hname_ne : N ≠ [])
    (hname_dig : ∀ c, N.head? = some c → c.isDigit = false)
    (hnZ : ¬ "_ZN".toList <:+: N) (hnP : ¬ "_PN".toList <:+: N)
    (hnQ : ¬ "_QN".toList <:+: N) (hnR : ¬ "_R".toList <:+: N)
    (hps : ∀ p ∈ Ps, '_' ∉ p ∧ ¬ "PN".toList <+: p ∧ ¬ "QN".toList <+: p ∧ ¬ ['R'] <+: p)
    (hqs : ∀ q ∈ Qs, '_' ∉ q ∧ ¬ "PN".toList <+: q ∧ ¬ "QN".toList <+: q ∧ ¬ ['R'] <+: q)
    (hrP : ¬ "_PN".toList <:+: R) (hrQ : ¬ "_QN".toList <:+: R)
    (hrR : ¬ "_R".toList <:+: R) :
    msName? (FunctionSignature.mangle ⟨N, Ps, Qs, R⟩) = some N ∧
    msParams? (FunctionSignature.mangle ⟨N, Ps, Qs, R⟩) = some Ps ∧
    msQubits? (FunctionSignature.mangle ⟨N, Ps, Qs, R⟩) = some Qs ∧
    msReturnType? (FunctionSignature.mangle ⟨N, Ps, Qs, R⟩) = some R := by
  have A_PN_S3 : ¬ (('_' :: ['P','N']) <:+: ('_' :: 'R' :: R)) :=
    not_infix_cons_of (by simp [List.cons_prefix_cons]) (not_infix_cons_of (by simp [List.cons_prefix_cons]) hrP)
  have A_QN_S3 : ¬ (('_' :: ['Q','N']) <:+: ('_' :: 'R' :: R)) :=
    not_infix_cons_of (by simp [List.cons_prefix_cons]) (not_infix_cons_of (by simp [List.cons_prefix_cons]) hrQ)
  have B_PN_S2 : ¬ (('_' :: ['P','N']) <:+: (natChars Qs.length ++ ((if Qs.length > 0 then ['_'] else []) ++ (pyJoin ['_'] Qs ++ '_' :: ('R' :: R))))) :=
    not_infix_append_L (underscore_notin_natChars _)
      (not_infix_sect (by decide) Qs ('R' :: R)
        (fun q hq => ⟨(hqs q hq).1, (hqs q hq).2.1⟩) A_PN_S3)
  have B_QN_S2 : ¬ (('_' :: ['Q','N']) <:+: (natChars Qs.length ++ ((if Qs.length > 0 then ['_'] else []) ++ (pyJoin ['_'] Qs ++ '_' :: ('R' :: R))))) :=
    not_infix_append_L (underscore_notin_natChars _)
      (not_infix_sect (by decide) Qs ('R' :: R)
        (fun q hq => ⟨(hqs q hq).1, (hqs q hq).2.2.1⟩) A_QN_S3)
  have C_PN_S2 : ¬ (('_' :: ['P','N']) <:+: ('_' :: 'Q' :: 'N' :: (natChars Qs.length ++ ((if Qs.length > 0 then ['_'] else []) ++ (pyJoin ['_'] Qs ++ '_' :: ('R' :: R)))))) :=
    not_infix_cons_of (by simp [List.cons_prefix_cons]) (not_infix_cons_of (by simp [List.cons_prefix_cons]) (not_infix_cons_of (by simp [List.cons_prefix_cons]) B_PN_S2))
  have D_PN_S1 : ¬ (('_' :: ['P','N']) <:+: (natChars Ps.length ++ ((if Ps.length > 0 then ['_'] else []) ++ (pyJoin ['_'] Ps ++ '_' :: ('Q' :: 'N' :: (natChars Qs.length ++ ((if Qs.length > 0 then ['_'] else []) ++ (pyJoin ['_'] Qs ++ '_' :: ('R' :: R))))))))) :=
    not_infix_append_L (underscore_notin_natChars _)
      (not_infix_sect (by decide) Ps _
        (fun p hp => ⟨(hps p hp).1, (hps p hp).2.1⟩) C_PN_S2)
  have H1_PN : ¬ (('_' :: ['P','N']) <:+:
      ('_' :: 'Z' :: 'N' :: (natChars N.length ++ (N ++ ['_', 'P'])))) :=
    not_infix_cons_of (by simp [List.cons_prefix_cons]) (not_infix_cons_of (by simp [List.cons_prefix_cons]) (not_infix_cons_of (by simp [List.cons_prefix_cons])
      (not_infix_append_L (underscore_notin_natChars _)
        (not_infix_append_R hnP (by decide)
          (head_underscore_notin (by decide) ['P'])))))
  have E_QN_P : ¬ (('_' :: ['Q','N']) <:+: (natChars Ps.length ++ ((if Ps.length > 0 then ['_'] else []) ++ (pyJoin ['_'] Ps ++ ['_', 'Q'])))) :=
    not_infix_append_L (underscore_notin_natChars _)
      (not_infix_sect (by decide) Ps ['Q']
        (fun p hp => ⟨(hps p hp).1, (hps p hp).2.2.1⟩) (by decide))
  have H1_QN : ¬ (('_' :: ['Q','N']) <:+:
      ('_' :: 'Z' :: 'N' :: (natChars N.length ++ (N ++
        ('_' :: 'P' :: 'N' :: (natChars Ps.length ++ ((if Ps.length > 0 then ['_'] else []) ++ (pyJoin ['_'] Ps ++ ['_', 'Q'])))))))) :=
    not_infix_cons_of (by simp [List.cons_prefix_cons]) (not_infix_cons_of (by simp [List.cons_prefix_cons]) (not_infix_cons_of (by simp [List.cons_prefix_cons])
      (not_infix_append_L (underscore_notin_natChars _)
        (not_infix_append_R hnQ (not_infix_cons_of (by simp [List.cons_prefix_cons]) (not_infix_cons_of (by simp [List.cons_prefix_cons]) (not_infix_cons_of (by simp [List.cons_prefix_cons]) E_QN_P)))
          (head_underscore_notin (by decide) _)))))
  have E_R_Q : ¬ (('_' :: ['R']) <:+: (natChars Qs.length ++ ((if Qs.length > 0 then ['_'] else []) ++ (pyJoin ['_'] Qs ++ ['_'])))) :=
    not_infix_append_L (underscore_notin_natChars _)
      (not_infix_sect (by decide) Qs []
        (fun q hq => ⟨(hqs q hq).1, (hqs q hq).2.2.2⟩) (by decide))
  have W_R : ¬ (('_' :: ['R']) <:+:
      ('_' :: ('Q' :: 'N' :: (natChars Qs.length ++ ((if Qs.length > 0 then ['_'] else []) ++ (pyJoin ['_'] Qs ++ ['_'])))))) :=
    not_infix_cons_of (by simp [List.cons_prefix_cons]) (not_infix_cons_of (by simp [List.cons_prefix_cons]) (not_infix_cons_of (by simp [List.cons_prefix_cons]) E_R_Q))
  have H1_R : ¬ (('_' :: ['R']) <:+:
      ('_' :: 'Z' :: 'N' :: (natChars N.length ++ (N ++
        ('_' :: 'P' :: 'N' :: (natChars Ps.length ++ ((if Ps.length > 0 then ['_'] else []) ++ (pyJoin ['_'] Ps ++
          ('_' :: ('Q' :: 'N' :: (natChars Qs.length ++ ((if Qs.length > 0 then ['_'] else []) ++ (pyJoin ['_'] Qs ++ ['_']))))))))))))) :=
    not_infix_cons_of (by simp [List.cons_prefix_cons]) (not_infix_cons_of (by simp [List.cons_prefix_cons]) (not_infix_cons_of (by simp [List.cons_prefix_cons])
      (not_infix_append_L (underscore_notin_natChars _)
        (not_infix_append_R hnR
          (not_infix_cons_of (by simp [List.cons_prefix_cons]) (not_infix_cons_of (by simp [List.cons_prefix_cons]) (not_infix_cons_of (by simp [List.cons_prefix_cons])
            (not_infix_append_L (underscore_notin_natChars _)
              (not_infix_sect (by decide) Ps _
                (fun p hp => ⟨(hps p hp).1, (hps p hp).2.2.2⟩) W_R)))))
          (head_underscore_notin (by decide) _)))))
  have hm1 : FunctionSignature.mangle ⟨N, Ps, Qs, R⟩ =
      (['_','Z','N'] ++ (natChars N.length ++ N)) ++ ['_','P','N'] ++ (natChars Ps.length ++ ((if Ps.length > 0 then ['_'] else []) ++ (pyJoin ['_'] Ps ++ '_' :: ('Q' :: 'N' :: (natChars Qs.length ++ ((if Qs.length > 0 then ['_'] else []) ++ (pyJoin ['_'] Qs ++ '_' :: ('R' :: R)))))))) := by
    unfold FunctionSignature.mangle
    rw [show ("_ZN".toList : Str) = ['_','Z','N'] from rfl,
        show ("_PN".toList : Str) = ['_','P','N'] from rfl,
        show ("_QN".toList : Str) = ['_','Q','N'] from rfl,
        show ("_R".toList : Str) = ['_','R'] from rfl]
    simp [List.append_assoc]
  have hm2 : FunctionSignature.mangle ⟨N, Ps, Qs, R⟩ =
      (['_','Z','N'] ++ (natChars N.length ++ (N ++ (['_','P','N'] ++ (natChars Ps.length ++ ((if Ps.length > 0 then ['_'] else []) ++ pyJoin ['_'] Ps)))))) ++ ['_','Q','N'] ++ (natChars Qs.length ++ ((if Qs.length > 0 then ['_'] else []) ++ (pyJoin ['_'] Qs ++ '_' :: ('R' :: R)))) := by
    unfold FunctionSignature.mangle
    rw [show ("_ZN".toList : Str) = ['_','Z','N'] from rfl,
        show ("_PN".toList : Str) = ['_','P','N'] from rfl,
        show ("_QN".toList : Str) = ['_','Q','N'] from rfl,
        show ("_R".toList : Str) = ['_','R'] from rfl]
    simp [List.append_assoc]
  have hm3 : FunctionSignature.mangle ⟨N, Ps, Qs, R⟩ =
      (['_','Z','N'] ++ (natChars N.length ++ (N ++ (['_','P','N'] ++ (natChars Ps.length ++ ((if Ps.length > 0 then ['_'] else []) ++ (pyJoin ['_'] Ps ++ ('_' :: ('Q' :: 'N' :: (natChars Qs.length ++ ((if Qs.length > 0 then ['_'] else []) ++ pyJoin ['_'] Qs))))))))))) ++ ['_','R'] ++ R := by
    unfold FunctionSignature.mangle
    rw [show ("_ZN".toList : Str) = ['_','Z','N'] from rfl,
        show ("_PN".toList : Str) = ['_','P','N'] from rfl,
        show ("_QN".toList : Str) = ['_','Q','N'] from rfl,
        show ("_R".toList : Str) = ['_','R'] from rfl]
    simp [List.append_assoc]
  have hsPN : pySplit ['_','P','N'] (FunctionSignature.mangle ⟨N, Ps, Qs, R⟩) =
      [(['_','Z','N'] ++ (natChars N.length ++ N)), (natChars Ps.length ++ ((if Ps.length > 0 then ['_'] else []) ++ (pyJoin ['_'] Ps ++ '_' :: ('Q' :: 'N' :: (natChars Qs.length ++ ((if Qs.length > 0 then ['_'] else []) ++ (pyJoin ['_'] Qs ++ '_' :: ('R' :: R))))))))] := by
    rw [hm1]
    exact pySplit_single_PN _ _ (by simpa [List.append_assoc] using H1_PN) D_PN_S1
  have hsQN : pySplit ['_','Q','N'] (FunctionSignature.mangle ⟨N, Ps, Qs, R⟩) =
      [(['_','Z','N'] ++ (natChars N.length ++ (N ++ (['_','P','N'] ++ (natChars Ps.length ++ ((if Ps.length > 0 then ['_'] else []) ++ pyJoin ['_'] Ps)))))), (natChars Qs.length ++ ((if Qs.length > 0 then ['_'] else []) ++ (pyJoin ['_'] Qs ++ '_' :: ('R' :: R))))] := by
    rw [hm2]
    exact pySplit_single_QN _ _ (by simpa [List.append_assoc] using H1_QN) B_QN_S2
  have hsR : pySplit ['_','R'] (FunctionSignature.mangle ⟨N, Ps, Qs, R⟩) =
      [(['_','Z','N'] ++ (natChars N.length ++ (N ++ (['_','P','N'] ++ (natChars Ps.length ++ ((if Ps.length > 0 then ['_'] else []) ++ (pyJoin ['_'] Ps ++ ('_' :: ('Q' :: 'N' :: (natChars Qs.length ++ ((if Qs.length > 0 then ['_'] else []) ++ pyJoin ['_'] Qs))))))))))), R] := by
    rw [hm3]
    exact pySplit_single_R _ _ (by simpa [List.append_assoc] using H1_R) hrR
  have hsZN : pySplit ['_','Z','N'] (['_','Z','N'] ++ (natChars N.length ++ N)) = [[], natChars N.length ++ N] := by
    rw [show (['_','Z','N'] ++ (natChars N.length ++ N)) = ([] : Str) ++ ['_','Z','N'] ++ (natChars N.length ++ N) from by simp]
    refine pySplit_single_ZN [] _ ?_ (not_infix_append_L (underscore_notin_natChars _) hnZ)
    simpa using (show ¬ ((['_','Z','N'] : Str) <:+: ['_','Z']) by decide)
  have hsQN2 : pySplit ['_','Q','N'] (natChars Ps.length ++ ((if Ps.length > 0 then ['_'] else []) ++ (pyJoin ['_'] Ps ++ '_' :: ('Q' :: 'N' :: (natChars Qs.length ++ ((if Qs.length > 0 then ['_'] else []) ++ (pyJoin ['_'] Qs ++ '_' :: ('R' :: R)))))))) = [(natChars Ps.length ++ ((if Ps.length > 0 then ['_'] else []) ++ pyJoin ['_'] Ps)), (natChars Qs.length ++ ((if Qs.length > 0 then ['_'] else []) ++ (pyJoin ['_'] Qs ++ '_' :: ('R' :: R))))] := by
    rw [show (natChars Ps.length ++ ((if Ps.length > 0 then ['_'] else []) ++ (pyJoin ['_'] Ps ++ '_' :: ('Q' :: 'N' :: (natChars Qs.length ++ ((if Qs.length > 0 then ['_'] else []) ++ (pyJoin ['_'] Qs ++ '_' :: ('R' :: R)))))))) = (natChars Ps.length ++ ((if Ps.length > 0 then ['_'] else []) ++ pyJoin ['_'] Ps)) ++ ['_','Q','N'] ++ (natChars Qs.length ++ ((if Qs.length > 0 then ['_'] else []) ++ (pyJoin ['_'] Qs ++ '_' :: ('R' :: R)))) from by
      simp [List.append_assoc]]
    exact pySplit_single_QN _ _ (by simpa [List.append_assoc] using E_QN_P) B_QN_S2
  have hsR2 : pySplit ['_','R'] (natChars Qs.length ++ ((if Qs.length > 0 then ['_'] else []) ++ (pyJoin ['_'] Qs ++ '_' :: ('R' :: R)))) = [(natChars Qs.length ++ ((if Qs.length > 0 then ['_'] else []) ++ pyJoin ['_'] Qs)), R] := by
    rw [show (natChars Qs.length ++ ((if Qs.length > 0 then ['_'] else []) ++ (pyJoin ['_'] Qs ++ '_' :: ('R' :: R)))) = (natChars Qs.length ++ ((if Qs.length > 0 then ['_'] else []) ++ pyJoin ['_'] Qs)) ++ ['_','R'] ++ R from by
      simp [List.append_assoc]]
    exact pySplit_single_R _ _ (by simpa [List.append_assoc] using E_R_Q) hrR
  have hdwN : (natChars N.length ++ N).dropWhile Char.isDigit = N := by
    rw [List.dropWhile_append]
    rw [show (natChars N.length).dropWhile Char.isDigit = [] from
      List.dropWhile_eq_nil_iff.mpr (fun c hc => natCharsGo_digit _ _ c hc)]
    simp only [List.isEmpty_nil, if_true]
    cases hN : N with
    | nil => exact absurd hN hname_ne
    | cons c N2 =>
      have hc : Char.isDigit c = false := hname_dig c (by rw [hN]; rfl)
      rw [List.dropWhile_cons, hc]
      simp
  have hNemp : N.isEmpty = false := by
    cases hN : N with
    | nil => exact absurd hN hname_ne
    | cons c N2 => rfl
  refine ⟨?_, ?_, ?_, ?_⟩
  · simp only [msName?]
    rw [show ("_PN".toList : Str) = ['_','P','N'] from rfl, hsPN]
    simp only [List.headD_cons]
    rw [show ("_ZN".toList : Str) = ['_','Z','N'] from rfl, hsZN]
    simp only [List.getElem?_cons_succ, List.getElem?_cons_zero]
    rw [hdwN]
    rw [hNemp]
    simp
  · simp only [msParams?]
    rw [show ("_PN".toList : Str) = ['_','P','N'] from rfl, hsPN]
    simp only [List.getElem?_cons_succ, List.getElem?_cons_zero]
    rw [show ("_QN".toList : Str) = ['_','Q','N'] from rfl, hsQN2]
    simp only [List.headD_cons]
    rw [msTokens Ps.length Ps (fun p hp => (hps p hp).1)]
  · simp only [msQubits?]
    rw [show ("_QN".toList : Str) = ['_','Q','N'] from rfl, hsQN]
    simp only [List.getElem?_cons_succ, List.getElem?_cons_zero]
    rw [show ("_R".toList : Str) = ['_','R'] from rfl, hsR2]
    simp only [List.headD_cons]
    rw [msTokens Qs.length Qs (fun q hq => (hqs q hq).1)]
  · simp only [msReturnType?]
    rw [show ("_R".toList : Str) = ['_','R'] from rfl, hsR]
    simp only [List.getElem?_cons_succ, List.getElem?_cons_zero]

/-- Claim C2 witness: the signature `foo(2) $1 -> int` round-trips. -/
theorem c2_roundtrip_witness :
    msName? (FunctionSignature.mangle
        ⟨"foo".toList, [['2']], ["$1".toList], "int".toList⟩) = some "foo".toList ∧
    msParams? (FunctionSignature.mangle
        ⟨"foo".toList, [['2']], ["$1".toList], "int".toList⟩) = some [['2']] ∧
    msQubits? (FunctionSignature.mangle
        ⟨"foo".toList, [['2']], ["$1".toList], "int".toList⟩) = some ["$1".toList] ∧
    msReturnType? (FunctionSignature.mangle
        ⟨"foo".toList, [['2']], ["$1".toList], "int".toList⟩) = some "int".toList :=
  c2_roundtrip "foo".toList [['2']] ["$1".toList] "int".toList (by decide)
    (by intro c hc; simp at hc; rw [← hc]; decide)
    (by decide) (by decide) (by decide) (by decide) (by decide) (by decide)
    (by decide) (by decide) (by decide)

/-- Claim C2 counterexample: for arbitrary token strings the round-trip fails —
a parameter token containing an underscore is re-split by `params()`. -/
theorem c2_counterexample :
    msParams? (FunctionSignature.mangle ⟨['x'], [['a','_','b']], [], []⟩) ≠
      some [['a','_','b']] := by decide

end Shipyard
